import Mathlib

/-!
Kinodynamic vehicle models (`src/robots.cpp`): embedding and properties

The three robot classes of `robots.cpp` (`RobotCarFirstOrder`, `RobotCarSecondOrder`,
`RobotCarFirstOrderWithTrailers`) and the factory `create_robot` are embedded as pure functions.

Modelling conventions

* Numbers.  The C++ code computes in `float`/`double`.  Two readings are embedded.
  - Exact reading (`step`, `integrate`, `propagate`): generic in a linearly ordered field `K`
    with a floor function, without rounding; `integration_dt` is `1/10`.  It is used for the
    properties that do not depend on rounding (shape of one step, order of the updates,
    normalisation, poses, factory).
  - Binary reading (`stepF`, `integrateF`, `propagateF`): over `ℚ`, every operation rounded as
    the source's types prescribe (`toFloat` to binary32, `toDouble` to binary64, nearest, ties
    to even), the locals narrowed from the `double` fields of the state, the constant `0.1f`
    being `13421773/134217728`.  The loop is run with fuel, since it need not end.  It is used
    for the properties that depend on the values or on the number of loop turns.  Every
    operation is evaluated in the format of its operands and every assignment to a `float`
    local rounds to binary32.  Not modelled: overflow, infinities and NaN (all values finite),
    and contraction or wider evaluation of operations.
* libm.  `cosf`, `sinf`, `tanf` and the constant `M_PI` are external; they are the fields of a
  parameter `Libm K`.  Every theorem holds for every choice of these functions; facts such as
  `cosf 0 = 1` are explicit hypotheses where a claim needs them.
* States.  `ompl::base::SE2StateSpace::StateType` and the two `StateType` classes of the file
  are records; a getter is a field read and a setter a field update.  The heading components of
  the trailer state are a list (`theta[0]` is the pulling car).
* `propagate` keeps the C++ signature: it reads `start` and writes into the buffer `result`,
  whose updated value is returned.
-/

set_option linter.unusedSectionVars false

namespace Robots

/-- External numeric functions of the C library used by `robots.cpp`. -/
structure Libm (K : Type) where
  cosf : K → K
  sinf : K → K
  tanf : K → K
  pi : K

/-- A rational instance for evaluating the model on concrete inputs: low-order Taylor
polynomials (exact at `0`) and `355/113` for `M_PI`. -/
def ratLibm : Libm ℚ where
  cosf a := 1 - a ^ 2 / 2 + a ^ 4 / 24
  sinf a := a - a ^ 3 / 6
  tanf a := a + a ^ 3 / 3
  pi := 355 / 113

/-- The constant `integration_dt` of the three `propagate` functions in the exact reading:
`1/10` (the `float` constant `0.1f` itself is `integration_dtF`). -/
def integration_dt {K : Type} [LinearOrderedField K] : K := 1 / 10

/-- The `do { dt = min(remaining_time, integration_dt); body; remaining_time -= dt; }
while (remaining_time >= integration_dt)` loop shared by the three `propagate` functions.
`body dt` is the block of updates of the local variables for a step of size `dt`.  Exact
reading: `remaining_time` is not rounded, so the loop terminates (whenever it continues, the
number of whole steps left in `remaining_time` drops); the `float` loop is `integrateF`. -/
def integrate {K : Type} [LinearOrderedField K] [FloorRing K] {σ : Type}
    (body : K → σ → σ) (remaining_time : K) (st : σ) : σ :=
  let dt := min remaining_time integration_dt
  let st' := body dt st
  let remaining_time' := remaining_time - dt
  if remaining_time' ≥ integration_dt then integrate body remaining_time' st' else st'
termination_by ⌊remaining_time / integration_dt⌋₊
decreasing_by
  rename_i h0
  have h : remaining_time - min remaining_time integration_dt ≥ (integration_dt : K) := h0
  clear h0
  have hpos : (0 : K) < integration_dt := by unfold integration_dt; positivity
  have hmin : min remaining_time (integration_dt : K) = integration_dt := by
    rcases le_total remaining_time (integration_dt : K) with hle | hle
    · rw [min_eq_left hle] at h
      have : (integration_dt : K) ≤ 0 := by simpa using h
      exact absurd this (not_le.mpr hpos)
    · exact min_eq_right hle
  rw [hmin] at h ⊢
  have h1 : (1 : K) ≤ (remaining_time - integration_dt) / integration_dt := by
    rw [le_div_iff₀ hpos]; simpa using h
  have heq : remaining_time / integration_dt
      = (remaining_time - integration_dt) / integration_dt + 1 := by
    field_simp
  rw [heq, Nat.floor_add_one (le_trans zero_le_one h1)]
  exact Nat.lt_succ_self _

/-- Modelled from the spec: `ompl::base::SO2StateSpace::enforceBounds` belongs to the planning
framework and is not part of the sources.  The spec fixes its result: the equivalent angle in the
canonical range `(-π, π]`; this is that angle, `v - 2π·⌈(v - π) / 2π⌉`. -/
def enforceBounds {K : Type} [LinearOrderedField K] [FloorRing K] (T : Libm K) (v : K) : K :=
  v - (⌈(v - T.pi) / (2 * T.pi)⌉ : ℤ) * (2 * T.pi)

/-- The canonical range of a heading, `(-π, π]`. -/
def Canonical {K : Type} [LinearOrderedField K] (T : Libm K) (v : K) : Prop :=
  -T.pi < v ∧ v ≤ T.pi

instance {K : Type} [LinearOrderedField K] (T : Libm K) (v : K) : Decidable (Canonical T v) := by
  unfold Canonical; infer_instance

/-- Congruence of two angles modulo `2π`. -/
def CongrMod2Pi {K : Type} [LinearOrderedField K] (T : Libm K) (a b : K) : Prop :=
  ∃ k : ℤ, a = b + (k : K) * (2 * T.pi)

/-- The type `ompl::base::RealVectorBounds`: per-dimension lower and upper bounds. -/
structure RealVectorBounds (K : Type) where
  low : List K
  high : List K
  deriving DecidableEq

/-- The shape `fcl::Boxf(x, y, z)`. -/
structure Boxf (K : Type) where
  sx : K
  sy : K
  sz : K
  deriving DecidableEq

/-- The value `fcl::Transform3f` as built in this file: a translation followed by a rotation by
`rotZ` about `Eigen::Vector3f::UnitZ()`. -/
structure Transform3f (K : Type) where
  translation : K × K × K
  rotZ : K
  deriving DecidableEq

/-- How a call can go wrong: `assert(false)` is reached, or a vector/state component is read
past its end (undefined behaviour in C++). -/
inductive Fault where
  | assertion
  | outOfBounds
  deriving DecidableEq

/-- Kind of a component of a compound state space (`addSubspace`). -/
inductive Subspace where
  | realVector (dim : Nat)
  | so2
  deriving DecidableEq

/-! RobotCarFirstOrder -/

/-- The state `ob::SE2StateSpace::StateType`: position and heading. -/
structure SE2State (K : Type) where
  x : K
  y : K
  yaw : K
  deriving DecidableEq

namespace SE2State
variable {K : Type}

def getX (s : SE2State K) : K := s.x
def getY (s : SE2State K) : K := s.y
def getYaw (s : SE2State K) : K := s.yaw
def setX (s : SE2State K) (x : K) : SE2State K := { s with x := x }
def setY (s : SE2State K) (y : K) : SE2State K := { s with y := y }
def setYaw (s : SE2State K) (yaw : K) : SE2State K := { s with yaw := yaw }

end SE2State

/-- The class `RobotCarFirstOrder`: what its constructor stores. -/
structure RobotCarFirstOrder (K : Type) where
  geom_ : List (Boxf K)
  position_bounds : RealVectorBounds K
  cbounds : RealVectorBounds K
  deriving DecidableEq

namespace RobotCarFirstOrder
variable {K : Type} [LinearOrderedField K] [FloorRing K]

/-- The constructor `RobotCarFirstOrder(position_bounds, v_limit, w_limit)`. -/
def new (position_bounds : RealVectorBounds K) (v_limit w_limit : K) : RobotCarFirstOrder K where
  geom_ := [⟨1 / 2, 1 / 4, 1⟩]
  position_bounds := position_bounds
  cbounds := ⟨[-v_limit, -w_limit], [v_limit, w_limit]⟩

/-- Modelled from the spec: `Robot::numParts` of the base class (`robots.h`, not part of the
sources) is 1 for the cars. -/
def numParts (_r : RobotCarFirstOrder K) : Nat := 1

/-- Body of the integration loop of `propagate` (lines 61-63) for a step of size `dt`; the
locals `x`, `y`, `yaw` are kept in a record. -/
def step (T : Libm K) (ctrl : Fin 2 → K) (dt : K) (st : SE2State K) : SE2State K :=
  { x := st.x + ctrl 0 * T.cosf st.yaw * dt
    y := st.y + ctrl 0 * T.sinf st.yaw * dt
    yaw := st.yaw + ctrl 1 * dt }

/-- The locals `x`, `y`, `yaw` when the integration loop of `propagate` has ended (exact reading). -/
def integrated (T : Libm K) (start : SE2State K) (ctrl : Fin 2 → K) (duration : K) :
    SE2State K :=
  integrate (step T ctrl) duration ⟨start.getX, start.getY, start.getYaw⟩

/-- The method `RobotCarFirstOrder::propagate` in the exact reading. -/
def propagate (T : Libm K) (start : SE2State K) (control : Fin 2 → K) (duration : K)
    (result : SE2State K) : SE2State K :=
  let loc := integrated T start control duration
  let result := result.setX loc.x
  let result := result.setY loc.y
  let result := result.setYaw loc.yaw
  { result with yaw := enforceBounds T result.yaw }

/-- The method `RobotCarFirstOrder::getTransform`; the part index is ignored. -/
def getTransform (state : SE2State K) (_part : Nat) : Except Fault (Transform3f K) :=
  .ok ⟨(state.getX, state.getY, 0), state.getYaw⟩

/-- The method `RobotCarFirstOrder::setPosition`. -/
def setPosition (state : SE2State K) (position : Fin 3 → K) : SE2State K :=
  (state.setX (position 0)).setY (position 1)

end RobotCarFirstOrder

/-! RobotCarSecondOrder -/

/-- The state `RobotCarSecondOrder::StateSpace::StateType`. -/
structure CarSOState (K : Type) where
  x : K
  y : K
  yaw : K
  velocity : K
  angularVelocity : K
  deriving DecidableEq

namespace CarSOState
variable {K : Type}

def getX (s : CarSOState K) : K := s.x
def getY (s : CarSOState K) : K := s.y
def getYaw (s : CarSOState K) : K := s.yaw
def getVelocity (s : CarSOState K) : K := s.velocity
def getAngularVelocity (s : CarSOState K) : K := s.angularVelocity
def setX (s : CarSOState K) (x : K) : CarSOState K := { s with x := x }
def setY (s : CarSOState K) (y : K) : CarSOState K := { s with y := y }
/-- The setter `setYaw`: a plain store (lines 255-258). -/
def setYaw (s : CarSOState K) (yaw : K) : CarSOState K := { s with yaw := yaw }
def setVelocity (s : CarSOState K) (velocity : K) : CarSOState K :=
  { s with velocity := velocity }
def setAngularVelocity (s : CarSOState K) (angularVelocity : K) : CarSOState K :=
  { s with angularVelocity := angularVelocity }

end CarSOState

/-- The class `RobotCarSecondOrder`: what its constructor stores. -/
structure RobotCarSecondOrder (K : Type) where
  geom_ : List (Boxf K)
  position_bounds : RealVectorBounds K
  vel_bounds : RealVectorBounds K
  w_bounds : RealVectorBounds K
  cbounds : RealVectorBounds K
  deriving DecidableEq

namespace RobotCarSecondOrder
variable {K : Type} [LinearOrderedField K] [FloorRing K]

/-- The constructor `RobotCarSecondOrder(position_bounds, v_limit, w_limit, a_limit,
w_dot_limit)`. -/
def new (position_bounds : RealVectorBounds K) (v_limit w_limit a_limit w_dot_limit : K) :
    RobotCarSecondOrder K where
  geom_ := [⟨1 / 2, 1 / 4, 1⟩]
  position_bounds := position_bounds
  vel_bounds := ⟨[-v_limit], [v_limit]⟩
  w_bounds := ⟨[-w_limit], [w_limit]⟩
  cbounds := ⟨[-a_limit, -w_dot_limit], [a_limit, w_dot_limit]⟩

/-- Modelled from the spec: `Robot::numParts` of the base class (`robots.h`, not part of the
sources) is 1 for the cars. -/
def numParts (_r : RobotCarSecondOrder K) : Nat := 1

/-- Body of the integration loop of `propagate` (lines 167-171); the locals `x`, `y`, `yaw`,
`v`, `w` are kept in a record.  Each line reads the locals as left by the lines before it. -/
def step (T : Libm K) (ctrl : Fin 2 → K) (dt : K) (st : CarSOState K) : CarSOState K :=
  { x := st.x + st.velocity * T.cosf st.yaw * dt
    y := st.y + st.velocity * T.sinf st.yaw * dt
    yaw := st.yaw + st.angularVelocity * dt
    velocity := st.velocity + ctrl 0 * dt
    angularVelocity := st.angularVelocity + ctrl 1 * dt }

/-- The locals when the integration loop of `propagate` has ended (exact reading). -/
def integrated (T : Libm K) (start : CarSOState K) (ctrl : Fin 2 → K) (duration : K) :
    CarSOState K :=
  integrate (step T ctrl) duration
    ⟨start.getX, start.getY, start.getYaw, start.getVelocity, start.getAngularVelocity⟩

/-- The method `RobotCarSecondOrder::propagate` in the exact reading. -/
def propagate (T : Libm K) (start : CarSOState K) (control : Fin 2 → K) (duration : K)
    (result : CarSOState K) : CarSOState K :=
  let loc := integrated T start control duration
  let result := result.setX loc.x
  let result := result.setY loc.y
  let result := result.setYaw loc.yaw
  let result := result.setVelocity loc.velocity
  let result := result.setAngularVelocity loc.angularVelocity
  { result with yaw := enforceBounds T result.yaw }

/-- The method `RobotCarSecondOrder::getTransform`; the part index is ignored. -/
def getTransform (state : CarSOState K) (_part : Nat) : Except Fault (Transform3f K) :=
  .ok ⟨(state.getX, state.getY, 0), state.getYaw⟩

/-- The method `RobotCarSecondOrder::setPosition` (it writes components 0 and 1 of the position
subspace through the `SE2StateSpace::StateType` accessors). -/
def setPosition (state : CarSOState K) (position : Fin 3 → K) : CarSOState K :=
  (state.setX (position 0)).setY (position 1)

end RobotCarSecondOrder

/-! RobotCarFirstOrderWithTrailers -/

/-- The state `RobotCarFirstOrderWithTrailers::StateSpace::StateType`: the position and one
`SO2` component per body; `theta[0]` is the pulling car. -/
structure TrailerState (K : Type) where
  x : K
  y : K
  theta : List K
  deriving DecidableEq

namespace TrailerState
variable {K : Type} [LinearOrderedField K] [FloorRing K]

def getX (s : TrailerState K) : K := s.x
def getY (s : TrailerState K) : K := s.y
/-- The getter `getTheta(trailer)`; the component exists in every state of the robot space for
`trailer ≤ number of trailers` (the default is never read there). -/
def getTheta (s : TrailerState K) (trailer : Nat) : K := s.theta.getD trailer 0
def setX (s : TrailerState K) (x : K) : TrailerState K := { s with x := x }
def setY (s : TrailerState K) (y : K) : TrailerState K := { s with y := y }
/-- The setter `setTheta(trailer, yaw)`: store, then `SO2.enforceBounds` on the component
(lines 520-528). -/
def setTheta (T : Libm K) (s : TrailerState K) (trailer : Nat) (yaw : K) : TrailerState K :=
  let s := { s with theta := s.theta.set trailer yaw }
  { s with theta := s.theta.set trailer (enforceBounds T (s.theta.getD trailer 0)) }

end TrailerState

/-- The class `RobotCarFirstOrderWithTrailers`: what its constructor stores.  `subspaces` is the
list of components of its `StateSpace`. -/
structure RobotCarFirstOrderWithTrailers (K : Type) where
  geom_ : List (Boxf K)
  L_ : K
  hitch_lengths_ : List K
  subspaces : List Subspace
  position_bounds : RealVectorBounds K
  cbounds : RealVectorBounds K
  deriving DecidableEq

namespace RobotCarFirstOrderWithTrailers
variable {K : Type} [LinearOrderedField K] [FloorRing K]

/-- The constructor `StateSpace(numTrailers)` (lines 531-541): the components it adds. -/
def StateSpace.new (numTrailers : Nat) : List Subspace :=
  [Subspace.realVector 2, Subspace.so2] ++ List.replicate numTrailers Subspace.so2

/-- The constructor `RobotCarFirstOrderWithTrailers(position_bounds, v_limit, phi_limit, L,
hitch_lengths)`. -/
def new (position_bounds : RealVectorBounds K) (v_limit phi_limit L : K)
    (hitch_lengths : List K) : RobotCarFirstOrderWithTrailers K where
  geom_ := ⟨1 / 2, 1 / 4, 1⟩ :: hitch_lengths.map (fun _ => ⟨3 / 10, 1 / 4, 1⟩)
  L_ := L
  hitch_lengths_ := hitch_lengths
  subspaces := StateSpace.new hitch_lengths.length
  position_bounds := position_bounds
  cbounds := ⟨[-v_limit, -phi_limit], [v_limit, phi_limit]⟩

/-- The method `numParts` (lines 400-403). -/
def numParts (r : RobotCarFirstOrderWithTrailers K) : Nat := r.hitch_lengths_.length + 1

/-- A state of the robot's space has one heading per part. -/
def WellFormed (r : RobotCarFirstOrderWithTrailers K) (s : TrailerState K) : Prop :=
  s.theta.length = r.hitch_lengths_.length + 1

instance (r : RobotCarFirstOrderWithTrailers K) (s : TrailerState K) :
    Decidable (WellFormed r s) := by
  unfold WellFormed; infer_instance

/-- The value of `theta_dot` for trailer `i` (lines 434-438), computed from the current content
of the local vector `theta`.  The divisor is `hitch_lengths_[i-i]`, as in the source. -/
def thetaDot (r : RobotCarFirstOrderWithTrailers K) (T : Libm K) (ctrl : Fin 2 → K)
    (theta : List K) (i : Nat) : K :=
  let theta_dot := ctrl 0 / r.hitch_lengths_.getD (i - i) 0
  let theta_dot := (List.range' 1 (i - 1)).foldl
    (fun td j => td * T.cosf (theta.getD (j - 1) 0 - theta.getD j 0)) theta_dot
  theta_dot * T.sinf (theta.getD (i - 1) 0 - theta.getD i 0)

/-- The loop over the trailers `i = 1 .. hitch_lengths_.size()` (lines 433-440): `theta[i]` is
updated in place, in increasing order of `i`. -/
def trailerLoop (r : RobotCarFirstOrderWithTrailers K) (T : Libm K) (ctrl : Fin 2 → K) (dt : K)
    (theta : List K) : List K :=
  (List.range' 1 r.hitch_lengths_.length).foldl
    (fun th i => th.set i (th.getD i 0 + thetaDot r T ctrl th i * dt)) theta

/-- Body of the integration loop of `propagate` (lines 429-441); the locals `x`, `y` and the
vector `theta` are kept in a record. -/
def step (r : RobotCarFirstOrderWithTrailers K) (T : Libm K) (ctrl : Fin 2 → K) (dt : K)
    (st : TrailerState K) : TrailerState K :=
  let x := st.x + ctrl 0 * T.cosf (st.theta.getD 0 0) * dt
  let y := st.y + ctrl 0 * T.sinf (st.theta.getD 0 0) * dt
  let theta := trailerLoop r T ctrl dt st.theta
  let theta := theta.set 0 (theta.getD 0 0 + ctrl 0 / r.L_ * T.tanf (ctrl 1) * dt)
  { x := x, y := y, theta := theta }

/-- The locals when the integration loop of `propagate` has ended; `theta` is first filled from
`getTheta(i)`, `i = 0 .. hitch_lengths_.size()` (lines 417-422). -/
def integrated (r : RobotCarFirstOrderWithTrailers K) (T : Libm K) (start : TrailerState K)
    (ctrl : Fin 2 → K) (duration : K) : TrailerState K :=
  integrate (step r T ctrl) duration
    ⟨start.getX, start.getY,
      (List.range (r.hitch_lengths_.length + 1)).map (fun i => start.getTheta i)⟩

/-- The method `RobotCarFirstOrderWithTrailers::propagate` in the exact reading. -/
def propagate (r : RobotCarFirstOrderWithTrailers K) (T : Libm K) (start : TrailerState K)
    (control : Fin 2 → K) (duration : K) (result : TrailerState K) : TrailerState K :=
  let loc := integrated r T start control duration
  let result := result.setX loc.x
  let result := result.setY loc.y
  (List.range (r.hitch_lengths_.length + 1)).foldl
    (fun res i => res.setTheta T i (loc.theta.getD i 0)) result

/-- The method `RobotCarFirstOrderWithTrailers::getTransform` (lines 454-476).  For `part == 1`
the source reads `getTheta(1)` and `hitch_lengths_[0]` without a check; a read past the end is
reported as `Fault.outOfBounds`. -/
def getTransform (r : RobotCarFirstOrderWithTrailers K) (T : Libm K) (state : TrailerState K)
    (part : Nat) : Except Fault (Transform3f K) :=
  if part = 0 then
    .ok ⟨(state.getX, state.getY, 0), state.getTheta 0⟩
  else if part = 1 then
    match state.theta[1]?, r.hitch_lengths_[0]? with
    | some theta1, some h0 =>
      .ok ⟨(state.getX - T.cosf theta1 * h0, state.getY - T.sinf theta1 * h0, 0 - 0 * h0), theta1⟩
    | _, _ => .error Fault.outOfBounds
  else
    .error Fault.assertion

/-- The method `RobotCarFirstOrderWithTrailers::setPosition`. -/
def setPosition (state : TrailerState K) (position : Fin 3 → K) : TrailerState K :=
  (state.setX (position 0)).setY (position 1)

end RobotCarFirstOrderWithTrailers

/-! The factory -/

/-- The value `std::shared_ptr<Robot>`: one of the three classes. -/
inductive Robot (K : Type) where
  | carFirstOrder (r : RobotCarFirstOrder K)
  | carSecondOrder (r : RobotCarSecondOrder K)
  | carFirstOrderWithTrailers (r : RobotCarFirstOrderWithTrailers K)
  deriving DecidableEq

/-- The function `create_robot` (lines 608-655); `throw std::runtime_error` is `Except.error`. -/
def create_robot {K : Type} [LinearOrderedField K] [FloorRing K] (T : Libm K)
    (robotType : String) (positionBounds : RealVectorBounds K) : Except String (Robot K) :=
  if robotType = "car_first_order_0" then
    .ok (.carFirstOrder (RobotCarFirstOrder.new positionBounds (1 / 2) (1 / 2)))
  else if robotType = "car_second_order_0" then
    .ok (.carSecondOrder (RobotCarSecondOrder.new positionBounds (1 / 2) (1 / 2) 2 2))
  else if robotType = "car_first_order_with_0_trailers_0" then
    .ok (.carFirstOrderWithTrailers
      (RobotCarFirstOrderWithTrailers.new positionBounds (1 / 2) (T.pi / 3) (2 / 5) []))
  else if robotType = "car_first_order_with_1_trailers_0" then
    .ok (.carFirstOrderWithTrailers
      (RobotCarFirstOrderWithTrailers.new positionBounds (1 / 2) (T.pi / 3) (2 / 5) [1 / 2]))
  else
    .error "Unknown robot type!"

/-! State validity checker (`fclStateValidityChecker.hpp`) -/

/-- The class `fclStateValidityChecker` with what it calls outside the sources:
`si_->satisfiesBounds(state)`, the pose `robot_->getTransform(state)`, the shape
`robot_->getCollisionGeometry()`, and `isCollision geometry pose` for the outcome
`collision_data.result.isCollision()` of `environment_->collide` on the collision object built
from that shape and pose. -/
structure fclStateValidityChecker (σ G K : Type) where
  satisfiesBounds : σ → Bool
  getCollisionGeometry : G
  getTransform : σ → Transform3f K
  isCollision : G → Transform3f K → Bool

/-- The method `fclStateValidityChecker::isValid` (lines 22-35).  The second component is the
list of collision queries executed (`environment_->collide` calls), in order. -/
def fclStateValidityChecker.isValid {σ G K : Type} (chk : fclStateValidityChecker σ G K)
    (state : σ) : Bool × List (G × Transform3f K) :=
  if !chk.satisfiesBounds state then
    (false, [])
  else
    let robot := (chk.getCollisionGeometry, chk.getTransform state)
    let collision := chk.isCollision robot.1 robot.2
    (!collision, [robot])

/-! The trailer turn rate as the spec words it -/

/-- The turn rate of trailer `i` in the spec's words:
`(v / hitch_length[i-1]) · Π_{j=1}^{i-1} cos(θ_{j-1} − θ_j) · sin(θ_{i-1} − θ_i)`, all `θ` being
those of the list given. -/
def thetaDotDocumented {K : Type} [LinearOrderedField K] (T : Libm K) (hitch_length : List K)
    (v : K) (theta : List K) (i : ℕ) : K :=
  v / hitch_length.getD (i - 1) 0
    * ((List.range' 1 (i - 1)).map
        (fun j => T.cosf (theta.getD (j - 1) 0 - theta.getD j 0))).prod
    * T.sinf (theta.getD (i - 1) 0 - theta.getD i 0)

/-! Instrumentation -/

/-- Nearest integer, ties to the even one. -/
def roundEven (z : ℚ) : ℤ :=
  if z - ⌊z⌋ < 1 / 2 then ⌊z⌋
  else if 1 / 2 < z - ⌊z⌋ then ⌊z⌋ + 1
  else if ⌊z⌋ % 2 = 0 then ⌊z⌋ else ⌊z⌋ + 1

/-- Rounding to the nearest number with `p` significant bits and exponent of the last bit at
least `emin` (ties to even).  The exponent is unbounded above: overflow is not modelled. -/
def roundBinary (p : ℕ) (emin : ℤ) (x : ℚ) : ℚ :=
  if x = 0 then 0
  else (roundEven (x / 2 ^ (max (Int.log 2 |x| - ((p : ℤ) - 1)) emin)) : ℚ)
    * 2 ^ (max (Int.log 2 |x| - ((p : ℤ) - 1)) emin)

/-- Rounding to `float` (binary32): a conversion to `float`, or the result of an operation on
`float` operands. -/
def toFloat (x : ℚ) : ℚ := roundBinary 24 (-149) x

/-- Rounding to `double` (binary64): the result of an operation on `double` operands. -/
def toDouble (x : ℚ) : ℚ := roundBinary 53 (-1074) x

/-- The constant `integration_dt = 0.1f`: the `float` nearest to `0.1`. -/
def integration_dtF : ℚ := 13421773 / 134217728

/-- The integration loop of the three `propagate` functions with `remaining_time` and `dt` of
type `float`: `remaining_time -= dt` is a `float` subtraction.  `fuel` bounds the number of
turns; `none` means that the loop has not ended within `fuel` turns. -/
def integrateF {σ : Type} (body : ℚ → σ → σ) : ℕ → ℚ → σ → Option σ
  | 0, _, _ => none
  | fuel + 1, remaining_time, st =>
    let dt := min remaining_time integration_dtF
    let st' := body dt st
    let remaining_time' := toFloat (remaining_time - dt)
    if remaining_time' ≥ integration_dtF then integrateF body fuel remaining_time' st'
    else some st'

/-- The loop run with a body that counts its executions, for the duration `duration`
(`float remaining_time = duration`). -/
def loopCountF (fuel : ℕ) (duration : ℚ) : Option ℕ :=
  integrateF (fun _ n => n + 1) fuel (toFloat duration) 0

/-- The loop ends for the duration `duration` after `n` executions of its body. -/
def RunsBodies (duration : ℚ) (n : ℕ) : Prop :=
  ∃ N, ∀ fuel, N ≤ fuel → loopCountF fuel duration = some n

/-- Body of the loop of `RobotCarFirstOrder::propagate` (lines 61-63) on `float` locals:
`ctrl` is `double`, so each right-hand side is evaluated in `double` and the sum is converted
to `float`; `cosf`, `sinf` return a `float`. -/
def RobotCarFirstOrder.stepF (T : Libm ℚ) (ctrl : Fin 2 → ℚ) (dt : ℚ) (st : SE2State ℚ) :
    SE2State ℚ :=
  { x := toFloat (toDouble (st.x + toDouble (toDouble (ctrl 0 * toFloat (T.cosf st.yaw)) * dt)))
    y := toFloat (toDouble (st.y + toDouble (toDouble (ctrl 0 * toFloat (T.sinf st.yaw)) * dt)))
    yaw := toFloat (toDouble (st.yaw + toDouble (ctrl 1 * dt))) }

/-- The `float` locals `x`, `y`, `yaw` as initialised from the `double` fields of the start
state (lines 52-54). -/
def RobotCarFirstOrder.localsF (start : SE2State ℚ) : SE2State ℚ :=
  ⟨toFloat start.getX, toFloat start.getY, toFloat start.getYaw⟩

/-- The lines 70-76 of `RobotCarFirstOrder::propagate`: the locals are written to `result` and
the heading is normalised. -/
def RobotCarFirstOrder.writeResult (T : Libm ℚ) (loc : SE2State ℚ) (result : SE2State ℚ) :
    SE2State ℚ :=
  let result := result.setX loc.x
  let result := result.setY loc.y
  let result := result.setYaw loc.yaw
  { result with yaw := enforceBounds T result.yaw }

/-- The method `RobotCarFirstOrder::propagate` in the binary reading. -/
def RobotCarFirstOrder.propagateF (fuel : ℕ) (T : Libm ℚ) (start : SE2State ℚ)
    (control : Fin 2 → ℚ) (duration : ℚ) (result : SE2State ℚ) : Option (SE2State ℚ) :=
  (integrateF (RobotCarFirstOrder.stepF T control) fuel (toFloat duration)
    (RobotCarFirstOrder.localsF start)).map
    (fun loc => RobotCarFirstOrder.writeResult T loc result)

/-- Body of the loop of `RobotCarSecondOrder::propagate` (lines 167-171) on `float` locals: the
first three lines are `float` operations, the last two involve the `double` control. -/
def RobotCarSecondOrder.stepF (T : Libm ℚ) (ctrl : Fin 2 → ℚ) (dt : ℚ) (st : CarSOState ℚ) :
    CarSOState ℚ :=
  { x := toFloat (st.x + toFloat (toFloat (st.velocity * toFloat (T.cosf st.yaw)) * dt))
    y := toFloat (st.y + toFloat (toFloat (st.velocity * toFloat (T.sinf st.yaw)) * dt))
    yaw := toFloat (st.yaw + toFloat (st.angularVelocity * dt))
    velocity := toFloat (toDouble (st.velocity + toDouble (ctrl 0 * dt)))
    angularVelocity := toFloat (toDouble (st.angularVelocity + toDouble (ctrl 1 * dt))) }

/-- The `float` locals as initialised from the start state (lines 156-160). -/
def RobotCarSecondOrder.localsF (start : CarSOState ℚ) : CarSOState ℚ :=
  ⟨toFloat start.getX, toFloat start.getY, toFloat start.getYaw, toFloat start.getVelocity,
    toFloat start.getAngularVelocity⟩

/-- The lines 178-186 of `RobotCarSecondOrder::propagate`. -/
def RobotCarSecondOrder.writeResult (T : Libm ℚ) (loc : CarSOState ℚ) (result : CarSOState ℚ) :
    CarSOState ℚ :=
  let result := result.setX loc.x
  let result := result.setY loc.y
  let result := result.setYaw loc.yaw
  let result := result.setVelocity loc.velocity
  let result := result.setAngularVelocity loc.angularVelocity
  { result with yaw := enforceBounds T result.yaw }

/-- The method `RobotCarSecondOrder::propagate` in the binary reading. -/
def RobotCarSecondOrder.propagateF (fuel : ℕ) (T : Libm ℚ) (start : CarSOState ℚ)
    (control : Fin 2 → ℚ) (duration : ℚ) (result : CarSOState ℚ) : Option (CarSOState ℚ) :=
  (integrateF (RobotCarSecondOrder.stepF T control) fuel (toFloat duration)
    (RobotCarSecondOrder.localsF start)).map
    (fun loc => RobotCarSecondOrder.writeResult T loc result)

/-- The value of `theta_dot` for trailer `i` (lines 434-438) in `float`: the quotient is a
`double` converted to `float`, the other operations are `float` operations. -/
def RobotCarFirstOrderWithTrailers.thetaDotF (r : RobotCarFirstOrderWithTrailers ℚ)
    (T : Libm ℚ) (ctrl : Fin 2 → ℚ) (theta : List ℚ) (i : ℕ) : ℚ :=
  let theta_dot := toFloat (toDouble (ctrl 0 / r.hitch_lengths_.getD (i - i) 0))
  let theta_dot := (List.range' 1 (i - 1)).foldl
    (fun td j =>
      toFloat (td * toFloat (T.cosf (toFloat (theta.getD (j - 1) 0 - theta.getD j 0)))))
    theta_dot
  toFloat (theta_dot * toFloat (T.sinf (toFloat (theta.getD (i - 1) 0 - theta.getD i 0))))

/-- The loop over the trailers (lines 433-440) in `float`. -/
def RobotCarFirstOrderWithTrailers.trailerLoopF (r : RobotCarFirstOrderWithTrailers ℚ)
    (T : Libm ℚ) (ctrl : Fin 2 → ℚ) (dt : ℚ) (theta : List ℚ) : List ℚ :=
  (List.range' 1 r.hitch_lengths_.length).foldl
    (fun th i => th.set i (toFloat (th.getD i 0
      + toFloat (RobotCarFirstOrderWithTrailers.thetaDotF r T ctrl th i * dt)))) theta

/-- Body of the loop of `RobotCarFirstOrderWithTrailers::propagate` (lines 429-441) on `float`
locals; `tanf` takes its `double` argument converted to `float`. -/
def RobotCarFirstOrderWithTrailers.stepF (r : RobotCarFirstOrderWithTrailers ℚ) (T : Libm ℚ)
    (ctrl : Fin 2 → ℚ) (dt : ℚ) (st : TrailerState ℚ) : TrailerState ℚ :=
  let x := toFloat (toDouble (st.x
    + toDouble (toDouble (ctrl 0 * toFloat (T.cosf (st.theta.getD 0 0))) * dt)))
  let y := toFloat (toDouble (st.y
    + toDouble (toDouble (ctrl 0 * toFloat (T.sinf (st.theta.getD 0 0))) * dt)))
  let theta := RobotCarFirstOrderWithTrailers.trailerLoopF r T ctrl dt st.theta
  let theta := theta.set 0 (toFloat (toDouble (theta.getD 0 0
    + toDouble (toDouble (toDouble (ctrl 0 / r.L_) * toFloat (T.tanf (toFloat (ctrl 1))))
        * dt))))
  { x := x, y := y, theta := theta }

/-- The `float` locals `x`, `y` and the vector `theta` as initialised from the start state
(lines 417-422). -/
def RobotCarFirstOrderWithTrailers.localsF (r : RobotCarFirstOrderWithTrailers ℚ)
    (start : TrailerState ℚ) : TrailerState ℚ :=
  ⟨toFloat start.getX, toFloat start.getY,
    (List.range (r.hitch_lengths_.length + 1)).map (fun i => toFloat (start.getTheta i))⟩

/-- The lines 447-451 of `RobotCarFirstOrderWithTrailers::propagate`. -/
def RobotCarFirstOrderWithTrailers.writeResult (r : RobotCarFirstOrderWithTrailers ℚ)
    (T : Libm ℚ) (loc : TrailerState ℚ) (result : TrailerState ℚ) : TrailerState ℚ :=
  let result := result.setX loc.x
  let result := result.setY loc.y
  (List.range (r.hitch_lengths_.length + 1)).foldl
    (fun res i => res.setTheta T i (loc.theta.getD i 0)) result

/-- The method `RobotCarFirstOrderWithTrailers::propagate` in the binary reading. -/
def RobotCarFirstOrderWithTrailers.propagateF (fuel : ℕ) (r : RobotCarFirstOrderWithTrailers ℚ)
    (T : Libm ℚ) (start : TrailerState ℚ) (control : Fin 2 → ℚ) (duration : ℚ)
    (result : TrailerState ℚ) : Option (TrailerState ℚ) :=
  (integrateF (RobotCarFirstOrderWithTrailers.stepF r T control) fuel (toFloat duration)
    (RobotCarFirstOrderWithTrailers.localsF r start)).map
    (fun loc => RobotCarFirstOrderWithTrailers.writeResult r T loc result)

/-! The integration loop -/

theorem integration_dt_pos {K : Type} [LinearOrderedField K] :
    (0 : K) < integration_dt := by
  unfold integration_dt; positivity

section Loop

variable {K : Type} [LinearOrderedField K] [FloorRing K] {σ : Type}


/-- One turn of the do-while loop. -/
theorem integrate_unfold (body : K → σ → σ) (remaining_time : K) (st : σ) :
    integrate body remaining_time st =
      if remaining_time - min remaining_time integration_dt ≥ integration_dt then
        integrate body (remaining_time - min remaining_time integration_dt)
          (body (min remaining_time integration_dt) st)
      else body (min remaining_time integration_dt) st := by
  rw [integrate]

/-- A duration of at least one step: the body runs with `dt = integration_dt`, and the loop
goes on iff a whole step is left. -/
theorem integrate_ge (body : K → σ → σ) (remaining_time : K) (st : σ)
    (h : integration_dt ≤ remaining_time) :
    integrate body remaining_time st =
      if integration_dt ≤ remaining_time - integration_dt then
        integrate body (remaining_time - integration_dt) (body integration_dt st)
      else body integration_dt st := by
  rw [integrate_unfold, min_eq_right h]

end Loop

/-! Heading normalisation -/

section Heading

variable {K : Type} [LinearOrderedField K] [FloorRing K]

theorem enforceBounds_canonical (T : Libm K) (hpi : 0 < T.pi) (v : K) :
    Canonical T (enforceBounds T v) := by
  have h2 : (0 : K) < 2 * T.pi := by positivity
  have hle := Int.le_ceil ((v - T.pi) / (2 * T.pi))
  have hlt := Int.ceil_lt_add_one ((v - T.pi) / (2 * T.pi))
  rw [div_le_iff₀ h2] at hle
  rw [← sub_lt_iff_lt_add, lt_div_iff₀ h2] at hlt
  unfold Canonical enforceBounds
  constructor <;> linarith

theorem enforceBounds_congr (T : Libm K) (v : K) : CongrMod2Pi T (enforceBounds T v) v := by
  refine ⟨-⌈(v - T.pi) / (2 * T.pi)⌉, ?_⟩
  unfold enforceBounds
  push_cast
  ring

theorem enforceBounds_of_canonical (T : Libm K) (v : K) (h : Canonical T v) :
    enforceBounds T v = v := by
  obtain ⟨h1, h2⟩ := h
  have hpi : 0 < T.pi := by linarith
  have h2pi : (0 : K) < 2 * T.pi := by positivity
  have hc : ⌈(v - T.pi) / (2 * T.pi)⌉ = 0 := by
    rw [Int.ceil_eq_iff]
    constructor
    · rw [lt_div_iff₀ h2pi]; push_cast; linarith
    · rw [div_le_iff₀ h2pi]; push_cast; linarith
  unfold enforceBounds
  rw [hc]; simp

end Heading

/-! Lists: in-place updates -/

section Lists

variable {α : Type}

theorem set_getD_self (l : List α) (i : ℕ) (d : α) : l.set i (l.getD i d) = l := by
  induction l generalizing i with
  | nil => simp
  | cons a l ih =>
    cases i with
    | zero => simp
    | succ i => simpa using ih i

theorem map_getD_range (l : List α) (d : α) :
    (List.range l.length).map (fun i => l.getD i d) = l := by
  apply List.ext_getElem
  · simp
  · intro i h1 h2
    simp [List.getElem?_eq_getElem h2]

/-- Writing `g i` at the indices `i = 0 .. m-1` in turn. -/
theorem foldl_set_range (g : ℕ → α) (l : List α) (m : ℕ) (hm : m ≤ l.length) :
    (List.range m).foldl (fun acc i => acc.set i (g i)) l
      = (List.range m).map g ++ l.drop m := by
  induction m with
  | zero => simp
  | succ m ih =>
    have hlt : m < l.length := hm
    rw [List.range_succ, List.foldl_append, ih hlt.le, List.map_append]
    simp only [List.foldl_cons, List.foldl_nil, List.map_cons, List.map_nil]
    have hd : (l.drop m).set 0 (g m) = g m :: l.drop (m + 1) := by
      rw [List.drop_eq_getElem_cons hlt]; rfl
    rw [List.set_append_right _ _ (by simp)]
    simp [hd]

end Lists

/-! Shape of the results of `propagate` -/

section Results

variable {K : Type} [LinearOrderedField K] [FloorRing K]

theorem RobotCarFirstOrder.propagate_eq_firstOrder (T : Libm K) (start : SE2State K) (control : Fin 2 → K)
    (duration : K) (result : SE2State K) :
    RobotCarFirstOrder.propagate T start control duration result
      = ⟨(RobotCarFirstOrder.integrated T start control duration).x,
         (RobotCarFirstOrder.integrated T start control duration).y,
         enforceBounds T (RobotCarFirstOrder.integrated T start control duration).yaw⟩ := rfl

theorem RobotCarSecondOrder.propagate_eq_secondOrder (T : Libm K) (start : CarSOState K)
    (control : Fin 2 → K) (duration : K) (result : CarSOState K) :
    RobotCarSecondOrder.propagate T start control duration result
      = ⟨(RobotCarSecondOrder.integrated T start control duration).x,
         (RobotCarSecondOrder.integrated T start control duration).y,
         enforceBounds T (RobotCarSecondOrder.integrated T start control duration).yaw,
         (RobotCarSecondOrder.integrated T start control duration).velocity,
         (RobotCarSecondOrder.integrated T start control duration).angularVelocity⟩ := rfl

theorem TrailerState.setTheta_theta (T : Libm K) (s : TrailerState K) (i : ℕ) (a : K) :
    (s.setTheta T i a).theta = s.theta.set i (enforceBounds T a) := by
  unfold TrailerState.setTheta
  by_cases h : i < s.theta.length
  · simp [List.getD_eq_getElem?_getD, List.getElem?_set, h]
  · have h1 : s.theta.length ≤ i := not_lt.mp h
    simp [List.set_eq_of_length_le, h1]

theorem TrailerState.foldl_setTheta (T : Libm K) (f : ℕ → K) (is : List ℕ)
    (s : TrailerState K) :
    is.foldl (fun res i => res.setTheta T i (f i)) s
      = ⟨s.x, s.y, is.foldl (fun th i => th.set i (enforceBounds T (f i))) s.theta⟩ := by
  induction is generalizing s with
  | nil => rfl
  | cons i is ih =>
    rw [List.foldl_cons, ih, List.foldl_cons, TrailerState.setTheta_theta]
    rfl

/-- The result of the trailer rig: the integrated position, and each heading of the local vector
`theta` after `setTheta`. -/
theorem RobotCarFirstOrderWithTrailers.propagate_eq_trailers (r : RobotCarFirstOrderWithTrailers K)
    (T : Libm K) (start : TrailerState K) (control : Fin 2 → K) (duration : K)
    (result : TrailerState K) (hres : RobotCarFirstOrderWithTrailers.WellFormed r result) :
    RobotCarFirstOrderWithTrailers.propagate r T start control duration result
      = ⟨(RobotCarFirstOrderWithTrailers.integrated r T start control duration).x,
         (RobotCarFirstOrderWithTrailers.integrated r T start control duration).y,
         (List.range (r.hitch_lengths_.length + 1)).map (fun i => enforceBounds T
           ((RobotCarFirstOrderWithTrailers.integrated r T start control duration).theta.getD
             i 0))⟩ := by
  unfold RobotCarFirstOrderWithTrailers.WellFormed at hres
  unfold RobotCarFirstOrderWithTrailers.propagate
  simp only []
  rw [TrailerState.foldl_setTheta T
    (fun i => (RobotCarFirstOrderWithTrailers.integrated r T start control duration).theta.getD
      i 0)]
  have hlen : r.hitch_lengths_.length + 1
      ≤ ((result.setX (RobotCarFirstOrderWithTrailers.integrated r T start control duration).x).setY
          (RobotCarFirstOrderWithTrailers.integrated r T start control duration).y).theta.length := by
    simp [TrailerState.setX, TrailerState.setY, hres]
  rw [foldl_set_range (fun i => enforceBounds T
    ((RobotCarFirstOrderWithTrailers.integrated r T start control duration).theta.getD i 0))
    _ _ hlen]
  simp [TrailerState.setX, TrailerState.setY, hres, List.drop_eq_nil_of_le]

/-- A duration of exactly one step runs the body once with `dt = integration_dt`. -/
theorem integrate_dt {σ : Type} (body : K → σ → σ) (st : σ) :
    integrate body integration_dt st = body integration_dt st := by
  rw [integrate_ge body _ st (le_refl _), sub_self, if_neg (not_le.mpr integration_dt_pos)]

theorem foldl_mul_eq_prod {ι : Type} (f : ι → K) (l : List ι) (a : K) :
    l.foldl (fun td j => td * f j) a = a * (l.map f).prod := by
  induction l generalizing a with
  | nil => simp
  | cons j l ih => rw [List.foldl_cons, ih, List.map_cons, List.prod_cons, mul_assoc]

/-- The turn rate computed by the source: the documented product of cosines and the sine, but
divided by `hitch_lengths_[0]` for every trailer `i`. -/
theorem RobotCarFirstOrderWithTrailers.thetaDot_eq (r : RobotCarFirstOrderWithTrailers K)
    (T : Libm K) (ctrl : Fin 2 → K) (theta : List K) (i : ℕ) :
    RobotCarFirstOrderWithTrailers.thetaDot r T ctrl theta i
      = ctrl 0 / r.hitch_lengths_.getD 0 0
        * ((List.range' 1 (i - 1)).map
            (fun j => T.cosf (theta.getD (j - 1) 0 - theta.getD j 0))).prod
        * T.sinf (theta.getD (i - 1) 0 - theta.getD i 0) := by
  unfold RobotCarFirstOrderWithTrailers.thetaDot
  simp only [Nat.sub_self]
  rw [foldl_mul_eq_prod]

end Results

/-! Binary rounding -/

section Binary

theorem roundEven_intCast (n : ℤ) : roundEven (n : ℚ) = n := by
  unfold roundEven
  simp

theorem roundEven_floor_or (z : ℚ) : roundEven z = ⌊z⌋ ∨ roundEven z = ⌊z⌋ + 1 := by
  unfold roundEven
  split_ifs <;> simp

/-- Rounding to the nearest integer moves by at most one half. -/
theorem roundEven_sub_le (z : ℚ) : |(roundEven z : ℚ) - z| ≤ 1 / 2 := by
  have h1 := Int.floor_le z
  have h2 := Int.lt_floor_add_one z
  unfold roundEven
  rw [abs_le]
  split_ifs with a b c
  · constructor <;> linarith
  · push_cast
    constructor <;> linarith
  · have hb : z - ⌊z⌋ = 1 / 2 := le_antisymm (not_lt.mp b) (not_lt.mp a)
    constructor <;> linarith
  · have hb : z - ⌊z⌋ = 1 / 2 := le_antisymm (not_lt.mp b) (not_lt.mp a)
    push_cast
    constructor <;> linarith

theorem roundEven_abs_le (z : ℚ) (N : ℤ) (h : |z| < (N : ℚ)) : |roundEven z| ≤ N := by
  rw [abs_lt] at h
  have h1 : ⌊z⌋ < N := Int.floor_lt.mpr h.2
  have h2 : -N ≤ ⌊z⌋ := Int.le_floor.mpr (by push_cast; exact h.1.le)
  rw [abs_le]
  rcases roundEven_floor_or z with hr | hr <;> rw [hr] <;> constructor <;> omega

theorem roundBinary_zero (p : ℕ) (emin : ℤ) : roundBinary p emin 0 = 0 := by
  unfold roundBinary
  rw [if_pos rfl]

theorem roundBinary_of_ne (p : ℕ) (emin : ℤ) (x : ℚ) (hx : x ≠ 0) :
    roundBinary p emin x
      = (roundEven (x / 2 ^ (max (Int.log 2 |x| - ((p : ℤ) - 1)) emin)) : ℚ)
        * 2 ^ (max (Int.log 2 |x| - ((p : ℤ) - 1)) emin) := by
  unfold roundBinary
  rw [if_neg hx]

/-- The binade of a positive rational. -/
theorem log_eq_of_bounds (x : ℚ) (e : ℤ) (h1 : (2 : ℚ) ^ e ≤ x) (h2 : x < (2 : ℚ) ^ (e + 1)) :
    Int.log 2 x = e := by
  have hx : 0 < x := lt_of_lt_of_le (by positivity) h1
  apply le_antisymm
  · have := (Int.lt_zpow_iff_log_lt (b := 2) (by norm_num) hx).mp (by exact_mod_cast h2)
    omega
  · exact (Int.zpow_le_iff_le_log (b := 2) (by norm_num) hx).mp (by exact_mod_cast h1)

/-- Evaluation of a rounding from the binade of its argument. -/
theorem roundBinary_eq_of_binade (p : ℕ) (emin : ℤ) (x : ℚ) (e : ℤ)
    (h1 : (2 : ℚ) ^ e ≤ |x|) (h2 : |x| < (2 : ℚ) ^ (e + 1)) :
    roundBinary p emin x
      = (roundEven (x / 2 ^ (max (e - ((p : ℤ) - 1)) emin)) : ℚ)
        * 2 ^ (max (e - ((p : ℤ) - 1)) emin) := by
  have hx : x ≠ 0 := by
    intro h
    rw [h, abs_zero] at h1
    exact absurd h1 (not_le.mpr (by positivity))
  rw [roundBinary_of_ne p emin x hx, log_eq_of_bounds _ e h1 h2]

/-- A number `n · 2^j` with `|n| < 2^p` and `j ≥ emin` is representable: rounding returns it. -/
theorem roundBinary_of_dyadic (p : ℕ) (emin : ℤ) (n j : ℤ) (hn : |n| < 2 ^ p)
    (hj : emin ≤ j) : roundBinary p emin ((n : ℚ) * 2 ^ j) = (n : ℚ) * 2 ^ j := by
  by_cases h0 : n = 0
  · subst h0
    simp [roundBinary_zero]
  have h2j : (0 : ℚ) < 2 ^ j := by positivity
  have hx : (n : ℚ) * 2 ^ j ≠ 0 := mul_ne_zero (by exact_mod_cast h0) h2j.ne'
  have habs : |(n : ℚ) * 2 ^ j| = (|n| : ℤ) * 2 ^ j := by
    rw [abs_mul, abs_of_pos h2j]
    push_cast
    rfl
  have hlt : |(n : ℚ) * 2 ^ j| < (2 : ℚ) ^ ((p : ℤ) + j) := by
    rw [habs, zpow_add₀ (by norm_num : (2 : ℚ) ≠ 0), zpow_natCast]
    apply mul_lt_mul_of_pos_right _ h2j
    exact_mod_cast hn
  have hlog : Int.log 2 |(n : ℚ) * 2 ^ j| < (p : ℤ) + j :=
    (Int.lt_zpow_iff_log_lt (b := 2) (by norm_num) (abs_pos.mpr hx)).mp (by exact_mod_cast hlt)
  have hk : max (Int.log 2 |(n : ℚ) * 2 ^ j| - ((p : ℤ) - 1)) emin ≤ j :=
    max_le (by omega) hj
  rw [roundBinary_of_ne p emin _ hx]
  generalize max (Int.log 2 |(n : ℚ) * 2 ^ j| - ((p : ℤ) - 1)) emin = k at hk
  obtain ⟨d, rfl⟩ : ∃ d : ℕ, j = k + d := ⟨(j - k).toNat, by omega⟩
  have hq : (n : ℚ) * 2 ^ (k + (d : ℤ)) / 2 ^ k = ((n * 2 ^ d : ℤ) : ℚ) := by
    rw [zpow_add₀ (by norm_num : (2 : ℚ) ≠ 0), zpow_natCast]
    push_cast
    field_simp
    ring
  rw [hq, roundEven_intCast, zpow_add₀ (by norm_num : (2 : ℚ) ≠ 0), zpow_natCast]
  push_cast
  ring

/-- Every rounded value is of the form `n · 2^j` with `|n| < 2^p` and `j ≥ emin`. -/
theorem roundBinary_dyadic (p : ℕ) (hp : 1 ≤ p) (emin : ℤ) (x : ℚ) :
    ∃ n j : ℤ, |n| < 2 ^ p ∧ emin ≤ j ∧ roundBinary p emin x = (n : ℚ) * 2 ^ j := by
  by_cases hx : x = 0
  · refine ⟨0, emin, by positivity, le_refl _, ?_⟩
    rw [hx, roundBinary_zero]
    simp
  have hxpos : 0 < |x| := abs_pos.mpr hx
  rw [roundBinary_of_ne p emin x hx]
  have hkL : Int.log 2 |x| + 1 ≤ max (Int.log 2 |x| - ((p : ℤ) - 1)) emin + p := by
    have := le_max_left (Int.log 2 |x| - ((p : ℤ) - 1)) emin
    omega
  have hke : emin ≤ max (Int.log 2 |x| - ((p : ℤ) - 1)) emin := le_max_right _ _
  generalize max (Int.log 2 |x| - ((p : ℤ) - 1)) emin = k at hkL hke
  have h2k : (0 : ℚ) < 2 ^ k := by positivity
  have hup : |x| < (2 : ℚ) ^ (k + (p : ℤ)) := by
    have h1 : |x| < (2 : ℚ) ^ (Int.log 2 |x| + 1) := by
      exact_mod_cast Int.lt_zpow_succ_log_self (b := 2) (by norm_num) |x|
    exact lt_of_lt_of_le h1 (zpow_le_zpow_right₀ (by norm_num) hkL)
  have hquot : |x / 2 ^ k| < (((2 : ℤ) ^ p : ℤ) : ℚ) := by
    rw [abs_div, abs_of_pos h2k, div_lt_iff₀ h2k]
    push_cast
    rw [← zpow_natCast, ← zpow_add₀ (by norm_num : (2 : ℚ) ≠ 0), add_comm]
    exact hup
  have hm := roundEven_abs_le (x / 2 ^ k) (2 ^ p) hquot
  rcases lt_or_eq_of_le hm with hlt | heq
  · exact ⟨roundEven (x / 2 ^ k), k, hlt, hke, rfl⟩
  · obtain ⟨p', rfl⟩ : ∃ p', p = p' + 1 := ⟨p - 1, by omega⟩
    have hpow : (2 : ℤ) ^ p' < 2 ^ (p' + 1) := by
      rw [pow_succ]
      have : (0 : ℤ) < 2 ^ p' := by positivity
      omega
    rcases abs_eq (by positivity : (0 : ℤ) ≤ 2 ^ (p' + 1)) |>.mp heq with h | h
    · refine ⟨2 ^ p', k + 1, ?_, by omega, ?_⟩
      · rw [abs_of_nonneg (by positivity)]
        exact hpow
      · rw [h, zpow_add₀ (by norm_num : (2 : ℚ) ≠ 0)]
        push_cast
        ring
    · refine ⟨-2 ^ p', k + 1, ?_, by omega, ?_⟩
      · rw [abs_neg, abs_of_nonneg (by positivity)]
        exact hpow
      · rw [h, zpow_add₀ (by norm_num : (2 : ℚ) ≠ 0)]
        push_cast
        ring

theorem toFloat_zero : toFloat 0 = 0 := roundBinary_zero _ _

theorem toDouble_zero : toDouble 0 = 0 := roundBinary_zero _ _

/-- Converting a `float` to `float` changes nothing. -/
theorem toFloat_toFloat (x : ℚ) : toFloat (toFloat x) = toFloat x := by
  obtain ⟨n, j, hn, hj, h⟩ := roundBinary_dyadic 24 (by norm_num) (-149) x
  unfold toFloat
  rw [h]
  exact roundBinary_of_dyadic 24 (-149) n j hn hj

/-- Every `float` is a `double`. -/
theorem toDouble_toFloat (x : ℚ) : toDouble (toFloat x) = toFloat x := by
  obtain ⟨n, j, hn, hj, h⟩ := roundBinary_dyadic 24 (by norm_num) (-149) x
  unfold toFloat toDouble
  rw [h]
  exact roundBinary_of_dyadic 53 (-1074) n j
    (lt_trans hn (by norm_num)) (le_trans (by norm_num) hj)

/-- Below `2^20` a conversion to `float` adds at most `2^-5`. -/
theorem toFloat_le_add (y : ℚ) (h0 : 0 ≤ y) (h : y < 2 ^ 20) : toFloat y ≤ y + 1 / 32 := by
  rcases eq_or_lt_of_le h0 with hy | hy
  · rw [← hy, toFloat_zero]
    norm_num
  have habs : |y| = y := abs_of_pos hy
  have hlog : Int.log 2 |y| < 20 := by
    rw [habs]
    exact (Int.lt_zpow_iff_log_lt (b := 2) (by norm_num) hy).mp (by exact_mod_cast h)
  unfold toFloat
  rw [roundBinary_of_ne 24 (-149) y hy.ne']
  have hk : max (Int.log 2 |y| - (((24 : ℕ) : ℤ) - 1)) (-149) ≤ -4 :=
    max_le (by push_cast; omega) (by norm_num)
  generalize max (Int.log 2 |y| - (((24 : ℕ) : ℤ) - 1)) (-149) = k at hk
  have h2k : (0 : ℚ) < 2 ^ k := by positivity
  have hq : (2 : ℚ) ^ k ≤ 1 / 16 := by
    have := zpow_le_zpow_right₀ (by norm_num : (1 : ℚ) ≤ 2) hk
    norm_num at this
    linarith
  have hr := (abs_le.mp (roundEven_sub_le (y / 2 ^ k))).2
  have hmul : (roundEven (y / 2 ^ k) : ℚ) * 2 ^ k ≤ (y / 2 ^ k + 1 / 2) * 2 ^ k :=
    mul_le_mul_of_nonneg_right (by linarith) h2k.le
  have hexp : (y / 2 ^ k + 1 / 2) * 2 ^ k = y + 2 ^ k / 2 := by
    field_simp
    ring
  linarith

end Binary

/-! The integration loop in binary32 -/

section LoopF

variable {σ : Type}

theorem integration_dtF_pos : 0 < integration_dtF := by
  unfold integration_dtF; norm_num

/-- Evaluation of a conversion to `float` from the binade `e` of its argument. -/
theorem toFloat_eval (x v : ℚ) (e : ℤ) (h1 : (2 : ℚ) ^ e ≤ |x|) (h2 : |x| < (2 : ℚ) ^ (e + 1))
    (hv : (roundEven (x / 2 ^ (max (e - 23) (-149))) : ℚ) * 2 ^ (max (e - 23) (-149)) = v) :
    toFloat x = v := by
  unfold toFloat
  rw [roundBinary_eq_of_binade 24 (-149) x e h1 h2, ← hv]
  norm_num

/-- Evaluation of a rounding to `double` from the binade `e` of its argument. -/
theorem toDouble_eval (x v : ℚ) (e : ℤ) (h1 : (2 : ℚ) ^ e ≤ |x|) (h2 : |x| < (2 : ℚ) ^ (e + 1))
    (hv : (roundEven (x / 2 ^ (max (e - 52) (-1074))) : ℚ) * 2 ^ (max (e - 52) (-1074)) = v) :
    toDouble x = v := by
  unfold toDouble
  rw [roundBinary_eq_of_binade 53 (-1074) x e h1 h2, ← hv]
  norm_num

/-- A duration below one step: the body runs once, with `dt = remaining_time`. -/
theorem integrateF_lt (body : ℚ → σ → σ) (fuel : ℕ) (remaining_time : ℚ) (st : σ)
    (h : remaining_time < integration_dtF) :
    integrateF body (fuel + 1) remaining_time st = some (body remaining_time st) := by
  unfold integrateF
  simp only [min_eq_left h.le, sub_self, toFloat_zero, ge_iff_le]
  rw [if_neg (not_le.mpr integration_dtF_pos)]

/-- A duration of at least one step: the body runs with `dt = 0.1f`, and the loop goes on iff
the `float` difference is still at least one step. -/
theorem integrateF_ge (body : ℚ → σ → σ) (fuel : ℕ) (remaining_time : ℚ) (st : σ)
    (h : integration_dtF ≤ remaining_time) :
    integrateF body (fuel + 1) remaining_time st
      = if integration_dtF ≤ toFloat (remaining_time - integration_dtF) then
          integrateF body fuel (toFloat (remaining_time - integration_dtF))
            (body integration_dtF st)
        else some (body integration_dtF st) := by
  conv_lhs => unfold integrateF
  simp only [min_eq_right h, ge_iff_le]

/-- More fuel does not change a result. -/
theorem integrateF_succ (body : ℚ → σ → σ) (fuel : ℕ) (remaining_time : ℚ) (st r : σ)
    (h : integrateF body fuel remaining_time st = some r) :
    integrateF body (fuel + 1) remaining_time st = some r := by
  induction fuel generalizing remaining_time st with
  | zero => simp [integrateF] at h
  | succ fuel ih =>
    rcases lt_or_le remaining_time integration_dtF with hlt | hge
    · rw [integrateF_lt body _ _ _ hlt] at h ⊢
      exact h
    · rw [integrateF_ge body _ _ _ hge] at h ⊢
      split_ifs at h ⊢ with hc
      · exact ih _ _ h
      · exact h

theorem integrateF_mono (body : ℚ → σ → σ) (fuel fuel' : ℕ) (hle : fuel ≤ fuel')
    (remaining_time : ℚ) (st r : σ) (h : integrateF body fuel remaining_time st = some r) :
    integrateF body fuel' remaining_time st = some r := by
  induction fuel', hle using Nat.le_induction with
  | base => exact h
  | succ m _ ih => exact integrateF_succ body m _ _ _ ih

/-- The counter ends above its start, by at most the fuel. -/
theorem integrateF_count_bounds (fuel : ℕ) (remaining_time : ℚ) (m n : ℕ)
    (h : integrateF (fun _ k => k + 1) fuel remaining_time m = some n) :
    m < n ∧ n ≤ m + fuel := by
  induction fuel generalizing remaining_time m with
  | zero => simp [integrateF] at h
  | succ fuel ih =>
    unfold integrateF at h
    simp only [ge_iff_le] at h
    split_ifs at h with hc
    · have := ih _ _ h
      omega
    · simp only [Option.some.injEq] at h
      omega

/-- From one step on, every body runs with `dt = 0.1f`: the loop returns the iterate of that
step, as many times as the counting loop counts. -/
theorem integrateF_eq_iterate (body : ℚ → σ → σ) (fuel : ℕ) (remaining_time : ℚ) (st : σ)
    (m : ℕ) (h : integration_dtF ≤ remaining_time) :
    (integrateF (fun _ k => k + 1) fuel remaining_time m).map
        (fun n => (body integration_dtF)^[n - m] st)
      = integrateF body fuel remaining_time st := by
  induction fuel generalizing remaining_time st m with
  | zero => simp [integrateF]
  | succ fuel ih =>
    rw [integrateF_ge _ _ _ _ h, integrateF_ge _ _ _ _ h]
    split_ifs with hc
    · rw [← ih _ (body integration_dtF st) (m + 1) hc]
      cases hres : integrateF (fun _ k => k + 1) fuel
          (toFloat (remaining_time - integration_dtF)) (m + 1) with
      | none => rfl
      | some n =>
        have hb := (integrateF_count_bounds _ _ _ _ hres).1
        simp only [Option.map_some']
        have hn : n - m = (n - (m + 1)) + 1 := by omega
        rw [hn, Function.iterate_succ_apply]
    · simp

/-- Termination below `2^20`: each turn lowers `remaining_time` by at least `0.1f - 2^-5`. -/
theorem integrateF_isSome (body : ℚ → σ → σ) (fuel : ℕ) (remaining_time : ℚ) (st : σ)
    (hlt : remaining_time < 2 ^ 20)
    (hfuel : ⌊remaining_time / (integration_dtF - 1 / 32)⌋₊ < fuel) :
    (integrateF body fuel remaining_time st).isSome = true := by
  have hc : (0 : ℚ) < integration_dtF - 1 / 32 := by unfold integration_dtF; norm_num
  induction fuel generalizing remaining_time st with
  | zero => omega
  | succ fuel ih =>
    rcases lt_or_le remaining_time integration_dtF with hsmall | hge
    · rw [integrateF_lt body _ _ _ hsmall]
      rfl
    · rw [integrateF_ge body _ _ _ hge]
      split_ifs with hcont
      · have hnonneg : 0 ≤ remaining_time - integration_dtF := sub_nonneg.mpr hge
        have hpos := integration_dtF_pos
        have hstep := toFloat_le_add (remaining_time - integration_dtF) hnonneg (by linarith)
        apply ih
        · linarith
        · have h0 : 0 ≤ toFloat (remaining_time - integration_dtF)
              / (integration_dtF - 1 / 32) :=
            div_nonneg (le_trans hpos.le hcont) hc.le
          have hle : toFloat (remaining_time - integration_dtF) / (integration_dtF - 1 / 32) + 1
              ≤ remaining_time / (integration_dtF - 1 / 32) := by
            rw [div_add_one hc.ne']
            apply div_le_div_of_nonneg_right _ hc.le
            linarith
          have := Nat.floor_mono hle
          rw [Nat.floor_add_one h0] at this
          omega
      · rfl

/-- Below `2^20` the loop ends, after a number of bodies that does not depend on the body. -/
theorem runsBodies_exists (duration : ℚ) (h : toFloat duration < 2 ^ 20) :
    ∃ n, 1 ≤ n ∧ n ≤ ⌊toFloat duration / (integration_dtF - 1 / 32)⌋₊ + 1
      ∧ RunsBodies duration n := by
  have hs := integrateF_isSome (fun _ k => k + 1)
    (⌊toFloat duration / (integration_dtF - 1 / 32)⌋₊ + 1) (toFloat duration) 0 h
    (Nat.lt_succ_self _)
  obtain ⟨n, hn⟩ := Option.isSome_iff_exists.mp hs
  have hb := integrateF_count_bounds _ _ _ _ hn
  refine ⟨n, by omega, by omega,
    ⌊toFloat duration / (integration_dtF - 1 / 32)⌋₊ + 1, fun fuel hf => ?_⟩
  exact integrateF_mono _ _ _ hf _ _ _ hn

theorem runsBodies_unique (duration : ℚ) (n m : ℕ) (hn : RunsBodies duration n)
    (hm : RunsBodies duration m) : n = m := by
  obtain ⟨N, hN⟩ := hn
  obtain ⟨M, hM⟩ := hm
  have h1 := hN (max N M) (le_max_left _ _)
  have h2 := hM (max N M) (le_max_right _ _)
  rw [h1] at h2
  exact Option.some.inj h2

/-- A duration that narrows below one step runs one body. -/
theorem runsBodies_lt (duration : ℚ) (h : toFloat duration < integration_dtF) :
    RunsBodies duration 1 := by
  refine ⟨1, fun fuel hf => ?_⟩
  obtain ⟨k, rfl⟩ : ∃ k, fuel = k + 1 := ⟨fuel - 1, by omega⟩
  unfold loopCountF
  rw [integrateF_lt _ _ _ _ h]

/-- The loop of any body, for a duration of at least one step that runs `n` bodies: with
enough fuel it returns `n` steps of size `0.1f`. -/
theorem integrateF_of_runsBodies (body : ℚ → σ → σ) (duration : ℚ) (n : ℕ)
    (hn : RunsBodies duration n) (hge : integration_dtF ≤ toFloat duration) (st : σ) :
    ∃ N, ∀ fuel, N ≤ fuel →
      integrateF body fuel (toFloat duration) st = some ((body integration_dtF)^[n] st) := by
  obtain ⟨N, hN⟩ := hn
  refine ⟨N, fun fuel hf => ?_⟩
  have h := integrateF_eq_iterate body fuel (toFloat duration) st 0 hge
  have hc := hN fuel hf
  unfold loopCountF at hc
  rw [hc] at h
  simpa using h.symm

/-- The loop of any body, for a duration that narrows below one step: it returns one step of
size `(float) duration`. -/
theorem integrateF_of_lt (body : ℚ → σ → σ) (duration : ℚ)
    (hlt : toFloat duration < integration_dtF) (st : σ) (fuel : ℕ) (hf : 1 ≤ fuel) :
    integrateF body fuel (toFloat duration) st = some (body (toFloat duration) st) := by
  obtain ⟨k, rfl⟩ : ∃ k, fuel = k + 1 := ⟨fuel - 1, by omega⟩
  exact integrateF_lt body _ _ _ hlt

/-- One turn of the loop at a known value of the `float` difference. -/
theorem integrateF_turn (body : ℚ → σ → σ) (fuel : ℕ) (remaining_time r : ℚ) (st : σ)
    (h : integration_dtF ≤ remaining_time)
    (hr : toFloat (remaining_time - integration_dtF) = r) :
    integrateF body (fuel + 1) remaining_time st
      = if integration_dtF ≤ r then integrateF body fuel r (body integration_dtF st)
        else some (body integration_dtF st) := by
  rw [integrateF_ge body _ _ _ h, hr]

/-- At `3000000` the `float` subtraction of `0.1f` changes nothing: the loop never ends. -/
theorem integrateF_never (body : ℚ → σ → σ) (fuel : ℕ) (st : σ) :
    integrateF body fuel 3000000 st = none := by
  have hr : toFloat (3000000 - integration_dtF) = 3000000 :=
    toFloat_eval _ _ 21 (by norm_num [integration_dtF, abs_of_pos])
      (by norm_num [integration_dtF, abs_of_pos]) (by norm_num [integration_dtF, roundEven])
  induction fuel generalizing st with
  | zero => rfl
  | succ fuel ih =>
    rw [integrateF_turn body fuel 3000000 3000000 st (by norm_num [integration_dtF]) hr,
      if_pos (by norm_num [integration_dtF])]
    exact ih _

end LoopF

/-! Steps of the three models in the binary reading -/

section StepsF

theorem toFloat_one : toFloat 1 = 1 := by
  have := roundBinary_of_dyadic 24 (-149) 1 0 (by norm_num) (by norm_num)
  simpa [toFloat] using this

/-- The step `0.1f` is a `float`. -/
theorem toFloat_integration_dtF : toFloat integration_dtF = integration_dtF := by
  have := roundBinary_of_dyadic 24 (-149) 13421773 (-27) (by norm_num) (by norm_num)
  have h : ((13421773 : ℤ) : ℚ) * 2 ^ (-27 : ℤ) = integration_dtF := by
    unfold integration_dtF; norm_num
  rw [h] at this
  exact this

/-- A `float` converted to `double` and back is unchanged. -/
theorem toFloat_toDouble_of_float (x : ℚ) (hx : toFloat x = x) : toFloat (toDouble x) = x := by
  rw [← hx, toDouble_toFloat, toFloat_toFloat]

/-- A step of size zero of the first-order car leaves `float` locals unchanged. -/
theorem RobotCarFirstOrder.stepF_zero_firstOrder (T : Libm ℚ) (c : Fin 2 → ℚ) (st : SE2State ℚ)
    (hx : toFloat st.x = st.x) (hy : toFloat st.y = st.y) (hyaw : toFloat st.yaw = st.yaw) :
    RobotCarFirstOrder.stepF T c 0 st = st := by
  unfold RobotCarFirstOrder.stepF
  simp only [mul_zero, toDouble_zero, add_zero, toFloat_toDouble_of_float _ hx,
    toFloat_toDouble_of_float _ hy, toFloat_toDouble_of_float _ hyaw]

/-- A step of size zero of the second-order car leaves `float` locals unchanged. -/
theorem RobotCarSecondOrder.stepF_zero_secondOrder (T : Libm ℚ) (c : Fin 2 → ℚ) (st : CarSOState ℚ)
    (hx : toFloat st.x = st.x) (hy : toFloat st.y = st.y) (hyaw : toFloat st.yaw = st.yaw)
    (hv : toFloat st.velocity = st.velocity)
    (hw : toFloat st.angularVelocity = st.angularVelocity) :
    RobotCarSecondOrder.stepF T c 0 st = st := by
  unfold RobotCarSecondOrder.stepF
  simp only [mul_zero, toDouble_zero, toFloat_zero, add_zero, hx, hy, hyaw,
    toFloat_toDouble_of_float _ hv, toFloat_toDouble_of_float _ hw]

/-- At rest and without acceleration, a step of any size of the second-order car leaves `float`
locals unchanged. -/
theorem RobotCarSecondOrder.stepF_rest (T : Libm ℚ) (c : Fin 2 → ℚ) (hc0 : c 0 = 0)
    (hc1 : c 1 = 0) (dt x y yaw : ℚ) (hx : toFloat x = x) (hy : toFloat y = y)
    (hyaw : toFloat yaw = yaw) :
    RobotCarSecondOrder.stepF T c dt ⟨x, y, yaw, 0, 0⟩ = ⟨x, y, yaw, 0, 0⟩ := by
  unfold RobotCarSecondOrder.stepF
  simp only [hc0, hc1, zero_mul, toDouble_zero, toFloat_zero, add_zero, hx, hy, hyaw]

/-- A list of `float` values. -/
theorem getD_toFloat (th : List ℚ) (h : ∀ a ∈ th, toFloat a = a) (i : ℕ) :
    toFloat (th.getD i 0) = th.getD i 0 := by
  by_cases hi : i < th.length
  · rw [List.getD_eq_getElem _ _ hi]
    exact h _ (List.getElem_mem hi)
  · rw [List.getD_eq_default _ _ (not_lt.mp hi)]
    exact toFloat_zero

/-- A step of size zero of the trailer rig leaves `float` locals unchanged. -/
theorem RobotCarFirstOrderWithTrailers.stepF_zero_trailers (r : RobotCarFirstOrderWithTrailers ℚ)
    (T : Libm ℚ) (c : Fin 2 → ℚ) (st : TrailerState ℚ) (hx : toFloat st.x = st.x)
    (hy : toFloat st.y = st.y) (hth : ∀ a ∈ st.theta, toFloat a = a) :
    RobotCarFirstOrderWithTrailers.stepF r T c 0 st = st := by
  have hloop : RobotCarFirstOrderWithTrailers.trailerLoopF r T c 0 st.theta = st.theta := by
    unfold RobotCarFirstOrderWithTrailers.trailerLoopF
    generalize List.range' 1 r.hitch_lengths_.length = is
    generalize st.theta = th at hth
    induction is with
    | nil => rfl
    | cons i is ih =>
      rw [List.foldl_cons, mul_zero, toFloat_zero, add_zero, getD_toFloat th hth,
        set_getD_self, ih]
  unfold RobotCarFirstOrderWithTrailers.stepF
  simp only [hloop, mul_zero, toDouble_zero, add_zero, toFloat_toDouble_of_float _ hx,
    toFloat_toDouble_of_float _ hy,
    toFloat_toDouble_of_float _ (getD_toFloat st.theta hth 0), set_getD_self]

/-- What `writeResult` of the trailer rig leaves in a buffer of the robot's space. -/
theorem RobotCarFirstOrderWithTrailers.writeResult_eq (r : RobotCarFirstOrderWithTrailers ℚ)
    (T : Libm ℚ) (loc result : TrailerState ℚ)
    (hres : RobotCarFirstOrderWithTrailers.WellFormed r result) :
    RobotCarFirstOrderWithTrailers.writeResult r T loc result
      = ⟨loc.x, loc.y, (List.range (r.hitch_lengths_.length + 1)).map
          (fun i => enforceBounds T (loc.theta.getD i 0))⟩ := by
  unfold RobotCarFirstOrderWithTrailers.WellFormed at hres
  unfold RobotCarFirstOrderWithTrailers.writeResult
  simp only []
  rw [TrailerState.foldl_setTheta T (fun i => loc.theta.getD i 0)]
  have hlen : r.hitch_lengths_.length + 1
      ≤ ((result.setX loc.x).setY loc.y).theta.length := by
    simp [TrailerState.setX, TrailerState.setY, hres]
  rw [foldl_set_range (fun i => enforceBounds T (loc.theta.getD i 0)) _ _ hlen]
  simp [TrailerState.setX, TrailerState.setY, hres, List.drop_eq_nil_of_le]

/-- Zero duration in the binary reading: the three `propagate` functions return the start state
narrowed to `float`, with the heading(s) normalised. -/
theorem propagateF_zero (T : Libm ℚ) (fuel : ℕ) (hfuel : 1 ≤ fuel) :
    (∀ (s : SE2State ℚ) (c : Fin 2 → ℚ) (res : SE2State ℚ),
      RobotCarFirstOrder.propagateF fuel T s c 0 res
        = some ⟨toFloat s.x, toFloat s.y, enforceBounds T (toFloat s.yaw)⟩) ∧
    (∀ (s : CarSOState ℚ) (c : Fin 2 → ℚ) (res : CarSOState ℚ),
      RobotCarSecondOrder.propagateF fuel T s c 0 res
        = some ⟨toFloat s.x, toFloat s.y, enforceBounds T (toFloat s.yaw),
            toFloat s.velocity, toFloat s.angularVelocity⟩) ∧
    (∀ (r : RobotCarFirstOrderWithTrailers ℚ) (s : TrailerState ℚ) (c : Fin 2 → ℚ)
        (res : TrailerState ℚ), RobotCarFirstOrderWithTrailers.WellFormed r res →
      RobotCarFirstOrderWithTrailers.propagateF fuel r T s c 0 res
        = some ⟨toFloat s.x, toFloat s.y, (List.range (r.hitch_lengths_.length + 1)).map
            (fun i => enforceBounds T (toFloat (s.getTheta i)))⟩) := by
  have h0 : toFloat (0 : ℚ) < integration_dtF := by
    rw [toFloat_zero]; exact integration_dtF_pos
  refine ⟨?_, ?_, ?_⟩
  · intro s c res
    unfold RobotCarFirstOrder.propagateF
    rw [integrateF_of_lt _ 0 h0 _ fuel hfuel, toFloat_zero,
      RobotCarFirstOrder.stepF_zero_firstOrder T c _ (toFloat_toFloat _) (toFloat_toFloat _)
        (toFloat_toFloat _)]
    rfl
  · intro s c res
    unfold RobotCarSecondOrder.propagateF
    rw [integrateF_of_lt _ 0 h0 _ fuel hfuel, toFloat_zero,
      RobotCarSecondOrder.stepF_zero_secondOrder T c _ (toFloat_toFloat _) (toFloat_toFloat _)
        (toFloat_toFloat _) (toFloat_toFloat _) (toFloat_toFloat _)]
    rfl
  · intro r s c res hres
    have hth : ∀ a ∈ (RobotCarFirstOrderWithTrailers.localsF r s).theta, toFloat a = a := by
      intro a ha
      simp only [RobotCarFirstOrderWithTrailers.localsF, List.mem_map] at ha
      obtain ⟨i, _, rfl⟩ := ha
      exact toFloat_toFloat _
    unfold RobotCarFirstOrderWithTrailers.propagateF
    rw [integrateF_of_lt _ 0 h0 _ fuel hfuel, toFloat_zero,
      RobotCarFirstOrderWithTrailers.stepF_zero_trailers r T c _ (toFloat_toFloat _)
        (toFloat_toFloat _) hth]
    simp only [Option.map_some', RobotCarFirstOrderWithTrailers.writeResult_eq r T _ res hres]
    simp only [RobotCarFirstOrderWithTrailers.localsF, TrailerState.getX, TrailerState.getY,
      Option.some.injEq, TrailerState.mk.injEq, true_and]
    apply List.map_congr_left
    intro i hi
    have hi2 : i < r.hitch_lengths_.length + 1 := List.mem_range.mp hi
    simp [List.getD_eq_getElem?_getD, hi2]

end StepsF

/-! Evaluations of the binary32 loop and of `float` accumulations -/

section EvaluationsF

/-- For the duration `1.0` the loop runs nine bodies: after nine subtractions of `0.1f` the
`float` remainder is `13421763/134217728`, just below `0.1f`. -/
theorem runsBodies_one : RunsBodies 1 9 := by
  have h0 : toFloat 1 = 1 :=
    toFloat_eval _ _ (0) (by norm_num [integration_dtF, abs_of_pos])
      (by norm_num [integration_dtF, abs_of_pos]) (by norm_num [integration_dtF, roundEven])
  have h1 : toFloat (1 - integration_dtF) = (7549747 / 8388608) :=
    toFloat_eval _ _ (-1) (by norm_num [integration_dtF, abs_of_pos])
      (by norm_num [integration_dtF, abs_of_pos]) (by norm_num [integration_dtF, roundEven])
  have h2 : toFloat ((7549747 / 8388608) - integration_dtF) = (3355443 / 4194304) :=
    toFloat_eval _ _ (-1) (by norm_num [integration_dtF, abs_of_pos])
      (by norm_num [integration_dtF, abs_of_pos]) (by norm_num [integration_dtF, roundEven])
  have h3 : toFloat ((3355443 / 4194304) - integration_dtF) = (5872025 / 8388608) :=
    toFloat_eval _ _ (-1) (by norm_num [integration_dtF, abs_of_pos])
      (by norm_num [integration_dtF, abs_of_pos]) (by norm_num [integration_dtF, roundEven])
  have h4 : toFloat ((5872025 / 8388608) - integration_dtF) = (1258291 / 2097152) :=
    toFloat_eval _ _ (-1) (by norm_num [integration_dtF, abs_of_pos])
      (by norm_num [integration_dtF, abs_of_pos]) (by norm_num [integration_dtF, roundEven])
  have h5 : toFloat ((1258291 / 2097152) - integration_dtF) = (16777213 / 33554432) :=
    toFloat_eval _ _ (-2) (by norm_num [integration_dtF, abs_of_pos])
      (by norm_num [integration_dtF, abs_of_pos]) (by norm_num [integration_dtF, roundEven])
  have h6 : toFloat ((16777213 / 33554432) - integration_dtF) = (6710885 / 16777216) :=
    toFloat_eval _ _ (-2) (by norm_num [integration_dtF, abs_of_pos])
      (by norm_num [integration_dtF, abs_of_pos]) (by norm_num [integration_dtF, roundEven])
  have h7 : toFloat ((6710885 / 16777216) - integration_dtF) = (10066327 / 33554432) :=
    toFloat_eval _ _ (-2) (by norm_num [integration_dtF, abs_of_pos])
      (by norm_num [integration_dtF, abs_of_pos]) (by norm_num [integration_dtF, roundEven])
  have h8 : toFloat ((10066327 / 33554432) - integration_dtF) = (1677721 / 8388608) :=
    toFloat_eval _ _ (-3) (by norm_num [integration_dtF, abs_of_pos])
      (by norm_num [integration_dtF, abs_of_pos]) (by norm_num [integration_dtF, roundEven])
  have h9 : toFloat ((1677721 / 8388608) - integration_dtF) = (13421763 / 134217728) :=
    toFloat_eval _ _ (-4) (by norm_num [integration_dtF, abs_of_pos])
      (by norm_num [integration_dtF, abs_of_pos]) (by norm_num [integration_dtF, roundEven])
  refine ⟨9, fun fuel hf => ?_⟩
  obtain ⟨k, rfl⟩ : ∃ k, fuel = k + 9 := ⟨fuel - 9, by omega⟩
  unfold loopCountF
  rw [h0]
  rw [integrateF_turn _ (k + 8) 1 (7549747 / 8388608) _ (by norm_num [integration_dtF]) h1,
    if_pos (by norm_num [integration_dtF])]
  rw [integrateF_turn _ (k + 7) (7549747 / 8388608) (3355443 / 4194304) _ (by norm_num [integration_dtF]) h2,
    if_pos (by norm_num [integration_dtF])]
  rw [integrateF_turn _ (k + 6) (3355443 / 4194304) (5872025 / 8388608) _ (by norm_num [integration_dtF]) h3,
    if_pos (by norm_num [integration_dtF])]
  rw [integrateF_turn _ (k + 5) (5872025 / 8388608) (1258291 / 2097152) _ (by norm_num [integration_dtF]) h4,
    if_pos (by norm_num [integration_dtF])]
  rw [integrateF_turn _ (k + 4) (1258291 / 2097152) (16777213 / 33554432) _ (by norm_num [integration_dtF]) h5,
    if_pos (by norm_num [integration_dtF])]
  rw [integrateF_turn _ (k + 3) (16777213 / 33554432) (6710885 / 16777216) _ (by norm_num [integration_dtF]) h6,
    if_pos (by norm_num [integration_dtF])]
  rw [integrateF_turn _ (k + 2) (6710885 / 16777216) (10066327 / 33554432) _ (by norm_num [integration_dtF]) h7,
    if_pos (by norm_num [integration_dtF])]
  rw [integrateF_turn _ (k + 1) (10066327 / 33554432) (1677721 / 8388608) _ (by norm_num [integration_dtF]) h8,
    if_pos (by norm_num [integration_dtF])]
  rw [integrateF_turn _ (k + 0) (1677721 / 8388608) (13421763 / 134217728) _ (by norm_num [integration_dtF]) h9,
    if_neg (by norm_num [integration_dtF])]

/-- For the duration `0.5` the loop runs five bodies. -/
theorem runsBodies_half : RunsBodies (1 / 2) 5 := by
  have h0 : toFloat (1 / 2) = (1 / 2) :=
    toFloat_eval _ _ (-1) (by norm_num [integration_dtF, abs_of_pos])
      (by norm_num [integration_dtF, abs_of_pos]) (by norm_num [integration_dtF, roundEven])
  have h1 : toFloat ((1 / 2) - integration_dtF) = (13421773 / 33554432) :=
    toFloat_eval _ _ (-2) (by norm_num [integration_dtF, abs_of_pos])
      (by norm_num [integration_dtF, abs_of_pos]) (by norm_num [integration_dtF, roundEven])
  have h2 : toFloat ((13421773 / 33554432) - integration_dtF) = (5033165 / 16777216) :=
    toFloat_eval _ _ (-2) (by norm_num [integration_dtF, abs_of_pos])
      (by norm_num [integration_dtF, abs_of_pos]) (by norm_num [integration_dtF, roundEven])
  have h3 : toFloat ((5033165 / 16777216) - integration_dtF) = (6710887 / 33554432) :=
    toFloat_eval _ _ (-3) (by norm_num [integration_dtF, abs_of_pos])
      (by norm_num [integration_dtF, abs_of_pos]) (by norm_num [integration_dtF, roundEven])
  have h4 : toFloat ((6710887 / 33554432) - integration_dtF) = (13421775 / 134217728) :=
    toFloat_eval _ _ (-4) (by norm_num [integration_dtF, abs_of_pos])
      (by norm_num [integration_dtF, abs_of_pos]) (by norm_num [integration_dtF, roundEven])
  have h5 : toFloat ((13421775 / 134217728) - integration_dtF) = (1 / 67108864) :=
    toFloat_eval _ _ (-26) (by norm_num [integration_dtF, abs_of_pos])
      (by norm_num [integration_dtF, abs_of_pos]) (by norm_num [integration_dtF, roundEven])
  refine ⟨5, fun fuel hf => ?_⟩
  obtain ⟨k, rfl⟩ : ∃ k, fuel = k + 5 := ⟨fuel - 5, by omega⟩
  unfold loopCountF
  rw [h0]
  rw [integrateF_turn _ (k + 4) (1 / 2) (13421773 / 33554432) _ (by norm_num [integration_dtF]) h1,
    if_pos (by norm_num [integration_dtF])]
  rw [integrateF_turn _ (k + 3) (13421773 / 33554432) (5033165 / 16777216) _ (by norm_num [integration_dtF]) h2,
    if_pos (by norm_num [integration_dtF])]
  rw [integrateF_turn _ (k + 2) (5033165 / 16777216) (6710887 / 33554432) _ (by norm_num [integration_dtF]) h3,
    if_pos (by norm_num [integration_dtF])]
  rw [integrateF_turn _ (k + 1) (6710887 / 33554432) (13421775 / 134217728) _ (by norm_num [integration_dtF]) h4,
    if_pos (by norm_num [integration_dtF])]
  rw [integrateF_turn _ (k + 0) (13421775 / 134217728) (1 / 67108864) _ (by norm_num [integration_dtF]) h5,
    if_neg (by norm_num [integration_dtF])]

/-- For the duration `0.1f` the loop runs one body. -/
theorem runsBodies_dtF : RunsBodies integration_dtF 1 := by
  have h0 : toFloat integration_dtF = (13421773 / 134217728) :=
    toFloat_eval _ _ (-4) (by norm_num [integration_dtF, abs_of_pos])
      (by norm_num [integration_dtF, abs_of_pos]) (by norm_num [integration_dtF, roundEven])
  have h1 : toFloat ((13421773 / 134217728) - integration_dtF) = 0 := by
    rw [show ((13421773 / 134217728) : ℚ) - integration_dtF = 0 by norm_num [integration_dtF]]
    exact toFloat_zero
  refine ⟨1, fun fuel hf => ?_⟩
  obtain ⟨k, rfl⟩ : ∃ k, fuel = k + 1 := ⟨fuel - 1, by omega⟩
  unfold loopCountF
  rw [h0]
  rw [integrateF_turn _ (k + 0) (13421773 / 134217728) 0 _ (by norm_num [integration_dtF]) h1,
    if_neg (by norm_num [integration_dtF])]

/-- For the duration `0.1f + 0.1f` the loop runs two bodies. -/
theorem runsBodies_two_dtF : RunsBodies (integration_dtF + integration_dtF) 2 := by
  have h0 : toFloat (integration_dtF + integration_dtF) = (13421773 / 67108864) :=
    toFloat_eval _ _ (-3) (by norm_num [integration_dtF, abs_of_pos])
      (by norm_num [integration_dtF, abs_of_pos]) (by norm_num [integration_dtF, roundEven])
  have h1 : toFloat ((13421773 / 67108864) - integration_dtF) = (13421773 / 134217728) :=
    toFloat_eval _ _ (-4) (by norm_num [integration_dtF, abs_of_pos])
      (by norm_num [integration_dtF, abs_of_pos]) (by norm_num [integration_dtF, roundEven])
  have h2 : toFloat ((13421773 / 134217728) - integration_dtF) = 0 := by
    rw [show ((13421773 / 134217728) : ℚ) - integration_dtF = 0 by norm_num [integration_dtF]]
    exact toFloat_zero
  refine ⟨2, fun fuel hf => ?_⟩
  obtain ⟨k, rfl⟩ : ∃ k, fuel = k + 2 := ⟨fuel - 2, by omega⟩
  unfold loopCountF
  rw [h0]
  rw [integrateF_turn _ (k + 1) (13421773 / 67108864) (13421773 / 134217728) _ (by norm_num [integration_dtF]) h1,
    if_pos (by norm_num [integration_dtF])]
  rw [integrateF_turn _ (k + 0) (13421773 / 134217728) 0 _ (by norm_num [integration_dtF]) h2,
    if_neg (by norm_num [integration_dtF])]

/-- Ten `float` additions of `0.1f` (each evaluated in `double`, then converted), from `0`. -/
theorem accumulate_dtF :
    (fun x : ℚ => toFloat (toDouble (x + integration_dtF)))^[5] 0 = (1 / 2) ∧
    (fun x : ℚ => toFloat (toDouble (x + integration_dtF)))^[5] (1 / 2) = (8388609 / 8388608) ∧
    (fun x : ℚ => toFloat (toDouble (x + integration_dtF)))^[9] 0 = (1887437 / 2097152) ∧
    (fun x : ℚ => toFloat (toDouble (x + integration_dtF)))^[10] 0 = (8388609 / 8388608) := by
  have h1 : toFloat (toDouble (0 + integration_dtF)) = (13421773 / 134217728) := by
    rw [show (0 : ℚ) + integration_dtF = (13421773 / 134217728) by norm_num [integration_dtF]]
    rw [toDouble_eval (13421773 / 134217728) (13421773 / 134217728) (-4) (by norm_num [abs_of_pos])
      (by norm_num [abs_of_pos]) (by norm_num [roundEven])]
    exact toFloat_eval (13421773 / 134217728) (13421773 / 134217728) (-4) (by norm_num [abs_of_pos])
      (by norm_num [abs_of_pos]) (by norm_num [roundEven])
  have h2 : toFloat (toDouble ((13421773 / 134217728) + integration_dtF)) = (13421773 / 67108864) := by
    rw [show ((13421773 / 134217728) : ℚ) + integration_dtF = (13421773 / 67108864) by norm_num [integration_dtF]]
    rw [toDouble_eval (13421773 / 67108864) (13421773 / 67108864) (-3) (by norm_num [abs_of_pos])
      (by norm_num [abs_of_pos]) (by norm_num [roundEven])]
    exact toFloat_eval (13421773 / 67108864) (13421773 / 67108864) (-3) (by norm_num [abs_of_pos])
      (by norm_num [abs_of_pos]) (by norm_num [roundEven])
  have h3 : toFloat (toDouble ((13421773 / 67108864) + integration_dtF)) = (5033165 / 16777216) := by
    rw [show ((13421773 / 67108864) : ℚ) + integration_dtF = (40265319 / 134217728) by norm_num [integration_dtF]]
    rw [toDouble_eval (40265319 / 134217728) (40265319 / 134217728) (-2) (by norm_num [abs_of_pos])
      (by norm_num [abs_of_pos]) (by norm_num [roundEven])]
    exact toFloat_eval (40265319 / 134217728) (5033165 / 16777216) (-2) (by norm_num [abs_of_pos])
      (by norm_num [abs_of_pos]) (by norm_num [roundEven])
  have h4 : toFloat (toDouble ((5033165 / 16777216) + integration_dtF)) = (13421773 / 33554432) := by
    rw [show ((5033165 / 16777216) : ℚ) + integration_dtF = (53687093 / 134217728) by norm_num [integration_dtF]]
    rw [toDouble_eval (53687093 / 134217728) (53687093 / 134217728) (-2) (by norm_num [abs_of_pos])
      (by norm_num [abs_of_pos]) (by norm_num [roundEven])]
    exact toFloat_eval (53687093 / 134217728) (13421773 / 33554432) (-2) (by norm_num [abs_of_pos])
      (by norm_num [abs_of_pos]) (by norm_num [roundEven])
  have h5 : toFloat (toDouble ((13421773 / 33554432) + integration_dtF)) = (1 / 2) := by
    rw [show ((13421773 / 33554432) : ℚ) + integration_dtF = (67108865 / 134217728) by norm_num [integration_dtF]]
    rw [toDouble_eval (67108865 / 134217728) (67108865 / 134217728) (-1) (by norm_num [abs_of_pos])
      (by norm_num [abs_of_pos]) (by norm_num [roundEven])]
    exact toFloat_eval (67108865 / 134217728) (1 / 2) (-1) (by norm_num [abs_of_pos])
      (by norm_num [abs_of_pos]) (by norm_num [roundEven])
  have h6 : toFloat (toDouble ((1 / 2) + integration_dtF)) = (5033165 / 8388608) := by
    rw [show ((1 / 2) : ℚ) + integration_dtF = (80530637 / 134217728) by norm_num [integration_dtF]]
    rw [toDouble_eval (80530637 / 134217728) (80530637 / 134217728) (-1) (by norm_num [abs_of_pos])
      (by norm_num [abs_of_pos]) (by norm_num [roundEven])]
    exact toFloat_eval (80530637 / 134217728) (5033165 / 8388608) (-1) (by norm_num [abs_of_pos])
      (by norm_num [abs_of_pos]) (by norm_num [roundEven])
  have h7 : toFloat (toDouble ((5033165 / 8388608) + integration_dtF)) = (2936013 / 4194304) := by
    rw [show ((5033165 / 8388608) : ℚ) + integration_dtF = (93952413 / 134217728) by norm_num [integration_dtF]]
    rw [toDouble_eval (93952413 / 134217728) (93952413 / 134217728) (-1) (by norm_num [abs_of_pos])
      (by norm_num [abs_of_pos]) (by norm_num [roundEven])]
    exact toFloat_eval (93952413 / 134217728) (2936013 / 4194304) (-1) (by norm_num [abs_of_pos])
      (by norm_num [abs_of_pos]) (by norm_num [roundEven])
  have h8 : toFloat (toDouble ((2936013 / 4194304) + integration_dtF)) = (6710887 / 8388608) := by
    rw [show ((2936013 / 4194304) : ℚ) + integration_dtF = (107374189 / 134217728) by norm_num [integration_dtF]]
    rw [toDouble_eval (107374189 / 134217728) (107374189 / 134217728) (-1) (by norm_num [abs_of_pos])
      (by norm_num [abs_of_pos]) (by norm_num [roundEven])]
    exact toFloat_eval (107374189 / 134217728) (6710887 / 8388608) (-1) (by norm_num [abs_of_pos])
      (by norm_num [abs_of_pos]) (by norm_num [roundEven])
  have h9 : toFloat (toDouble ((6710887 / 8388608) + integration_dtF)) = (1887437 / 2097152) := by
    rw [show ((6710887 / 8388608) : ℚ) + integration_dtF = (120795965 / 134217728) by norm_num [integration_dtF]]
    rw [toDouble_eval (120795965 / 134217728) (120795965 / 134217728) (-1) (by norm_num [abs_of_pos])
      (by norm_num [abs_of_pos]) (by norm_num [roundEven])]
    exact toFloat_eval (120795965 / 134217728) (1887437 / 2097152) (-1) (by norm_num [abs_of_pos])
      (by norm_num [abs_of_pos]) (by norm_num [roundEven])
  have h10 : toFloat (toDouble ((1887437 / 2097152) + integration_dtF)) = (8388609 / 8388608) := by
    rw [show ((1887437 / 2097152) : ℚ) + integration_dtF = (134217741 / 134217728) by norm_num [integration_dtF]]
    rw [toDouble_eval (134217741 / 134217728) (134217741 / 134217728) (0) (by norm_num [abs_of_pos])
      (by norm_num [abs_of_pos]) (by norm_num [roundEven])]
    exact toFloat_eval (134217741 / 134217728) (8388609 / 8388608) (0) (by norm_num [abs_of_pos])
      (by norm_num [abs_of_pos]) (by norm_num [roundEven])
  simp only [Function.iterate_succ_apply', Function.iterate_zero, id_eq, h1, h2, h3, h4, h5, h6, h7, h8, h9, h10, and_self]

/-- Nine `float` additions of `2 · 0.1f` (each evaluated in `double`, then converted), from `0.5`. -/
theorem accumulate_two_dtF :
    (fun x : ℚ => toFloat (toDouble (x + (2 * integration_dtF))))^[1] (1 / 2) = (11744051 / 16777216) ∧
    (fun x : ℚ => toFloat (toDouble (x + (2 * integration_dtF))))^[9] (1 / 2) = (2411725 / 1048576) := by
  have h1 : toFloat (toDouble ((1 / 2) + (2 * integration_dtF))) = (11744051 / 16777216) := by
    rw [show ((1 / 2) : ℚ) + (2 * integration_dtF) = (46976205 / 67108864) by norm_num [integration_dtF]]
    rw [toDouble_eval (46976205 / 67108864) (46976205 / 67108864) (-1) (by norm_num [abs_of_pos])
      (by norm_num [abs_of_pos]) (by norm_num [roundEven])]
    exact toFloat_eval (46976205 / 67108864) (11744051 / 16777216) (-1) (by norm_num [abs_of_pos])
      (by norm_num [abs_of_pos]) (by norm_num [roundEven])
  have h2 : toFloat (toDouble ((11744051 / 16777216) + (2 * integration_dtF))) = (7549747 / 8388608) := by
    rw [show ((11744051 / 16777216) : ℚ) + (2 * integration_dtF) = (60397977 / 67108864) by norm_num [integration_dtF]]
    rw [toDouble_eval (60397977 / 67108864) (60397977 / 67108864) (-1) (by norm_num [abs_of_pos])
      (by norm_num [abs_of_pos]) (by norm_num [roundEven])]
    exact toFloat_eval (60397977 / 67108864) (7549747 / 8388608) (-1) (by norm_num [abs_of_pos])
      (by norm_num [abs_of_pos]) (by norm_num [roundEven])
  have h3 : toFloat (toDouble ((7549747 / 8388608) + (2 * integration_dtF))) = (9227469 / 8388608) := by
    rw [show ((7549747 / 8388608) : ℚ) + (2 * integration_dtF) = (73819749 / 67108864) by norm_num [integration_dtF]]
    rw [toDouble_eval (73819749 / 67108864) (73819749 / 67108864) (0) (by norm_num [abs_of_pos])
      (by norm_num [abs_of_pos]) (by norm_num [roundEven])]
    exact toFloat_eval (73819749 / 67108864) (9227469 / 8388608) (0) (by norm_num [abs_of_pos])
      (by norm_num [abs_of_pos]) (by norm_num [roundEven])
  have h4 : toFloat (toDouble ((9227469 / 8388608) + (2 * integration_dtF))) = (10905191 / 8388608) := by
    rw [show ((9227469 / 8388608) : ℚ) + (2 * integration_dtF) = (87241525 / 67108864) by norm_num [integration_dtF]]
    rw [toDouble_eval (87241525 / 67108864) (87241525 / 67108864) (0) (by norm_num [abs_of_pos])
      (by norm_num [abs_of_pos]) (by norm_num [roundEven])]
    exact toFloat_eval (87241525 / 67108864) (10905191 / 8388608) (0) (by norm_num [abs_of_pos])
      (by norm_num [abs_of_pos]) (by norm_num [roundEven])
  have h5 : toFloat (toDouble ((10905191 / 8388608) + (2 * integration_dtF))) = (12582913 / 8388608) := by
    rw [show ((10905191 / 8388608) : ℚ) + (2 * integration_dtF) = (100663301 / 67108864) by norm_num [integration_dtF]]
    rw [toDouble_eval (100663301 / 67108864) (100663301 / 67108864) (0) (by norm_num [abs_of_pos])
      (by norm_num [abs_of_pos]) (by norm_num [roundEven])]
    exact toFloat_eval (100663301 / 67108864) (12582913 / 8388608) (0) (by norm_num [abs_of_pos])
      (by norm_num [abs_of_pos]) (by norm_num [roundEven])
  have h6 : toFloat (toDouble ((12582913 / 8388608) + (2 * integration_dtF))) = (14260635 / 8388608) := by
    rw [show ((12582913 / 8388608) : ℚ) + (2 * integration_dtF) = (114085077 / 67108864) by norm_num [integration_dtF]]
    rw [toDouble_eval (114085077 / 67108864) (114085077 / 67108864) (0) (by norm_num [abs_of_pos])
      (by norm_num [abs_of_pos]) (by norm_num [roundEven])]
    exact toFloat_eval (114085077 / 67108864) (14260635 / 8388608) (0) (by norm_num [abs_of_pos])
      (by norm_num [abs_of_pos]) (by norm_num [roundEven])
  have h7 : toFloat (toDouble ((14260635 / 8388608) + (2 * integration_dtF))) = (15938357 / 8388608) := by
    rw [show ((14260635 / 8388608) : ℚ) + (2 * integration_dtF) = (127506853 / 67108864) by norm_num [integration_dtF]]
    rw [toDouble_eval (127506853 / 67108864) (127506853 / 67108864) (0) (by norm_num [abs_of_pos])
      (by norm_num [abs_of_pos]) (by norm_num [roundEven])]
    exact toFloat_eval (127506853 / 67108864) (15938357 / 8388608) (0) (by norm_num [abs_of_pos])
      (by norm_num [abs_of_pos]) (by norm_num [roundEven])
  have h8 : toFloat (toDouble ((15938357 / 8388608) + (2 * integration_dtF))) = (8808039 / 4194304) := by
    rw [show ((15938357 / 8388608) : ℚ) + (2 * integration_dtF) = (140928629 / 67108864) by norm_num [integration_dtF]]
    rw [toDouble_eval (140928629 / 67108864) (140928629 / 67108864) (1) (by norm_num [abs_of_pos])
      (by norm_num [abs_of_pos]) (by norm_num [roundEven])]
    exact toFloat_eval (140928629 / 67108864) (8808039 / 4194304) (1) (by norm_num [abs_of_pos])
      (by norm_num [abs_of_pos]) (by norm_num [roundEven])
  have h9 : toFloat (toDouble ((8808039 / 4194304) + (2 * integration_dtF))) = (2411725 / 1048576) := by
    rw [show ((8808039 / 4194304) : ℚ) + (2 * integration_dtF) = (154350397 / 67108864) by norm_num [integration_dtF]]
    rw [toDouble_eval (154350397 / 67108864) (154350397 / 67108864) (1) (by norm_num [abs_of_pos])
      (by norm_num [abs_of_pos]) (by norm_num [roundEven])]
    exact toFloat_eval (154350397 / 67108864) (2411725 / 1048576) (1) (by norm_num [abs_of_pos])
      (by norm_num [abs_of_pos]) (by norm_num [roundEven])
  simp only [Function.iterate_succ_apply', Function.iterate_zero, id_eq, h1, h2, h3, h4, h5, h6, h7, h8, h9, and_self]


end EvaluationsF

/-! Results of `propagate` in the binary reading -/

section ResultsF

/-- A state whose loop never changes: the loop returns it, when it ends. -/
theorem integrateF_fixed {σ : Type} (body : ℚ → σ → σ) (st : σ) (h : ∀ dt, body dt st = st)
    (fuel : ℕ) (remaining_time : ℚ) (hlt : remaining_time < 2 ^ 20)
    (hfuel : ⌊remaining_time / (integration_dtF - 1 / 32)⌋₊ < fuel) :
    integrateF body fuel remaining_time st = some st := by
  have hsome := integrateF_isSome body fuel remaining_time st hlt hfuel
  obtain ⟨r, hr⟩ := Option.isSome_iff_exists.mp hsome
  rw [hr]
  clear hsome hfuel hlt
  induction fuel generalizing remaining_time with
  | zero => simp [integrateF] at hr
  | succ fuel ih =>
    unfold integrateF at hr
    simp only [h, ge_iff_le] at hr
    split_ifs at hr with hc
    · exact ih _ hr
    · exact hr.symm

/-- With `ω = 0` the first-order car keeps its `float` heading, and `x`, `y` each receive the
same `float` addition at every step. -/
theorem RobotCarFirstOrder.iterate_stepF_straight (T : Libm ℚ) (c : Fin 2 → ℚ) (hw : c 1 = 0)
    (dt : ℚ) (n : ℕ) (x y yaw : ℚ) (hyaw : toFloat yaw = yaw) :
    (RobotCarFirstOrder.stepF T c dt)^[n] ⟨x, y, yaw⟩
      = ⟨(fun x' => toFloat (toDouble (x'
            + toDouble (toDouble (c 0 * toFloat (T.cosf yaw)) * dt))))^[n] x,
         (fun y' => toFloat (toDouble (y'
            + toDouble (toDouble (c 0 * toFloat (T.sinf yaw)) * dt))))^[n] y,
         yaw⟩ := by
  induction n generalizing x y with
  | zero => rfl
  | succ n ih =>
    rw [Function.iterate_succ_apply, Function.iterate_succ_apply, Function.iterate_succ_apply,
      ← ih]
    congr 1
    simp only [RobotCarFirstOrder.stepF, hw, zero_mul, toDouble_zero, add_zero,
      toFloat_toDouble_of_float _ hyaw]

/-- The velocities of the second-order car receive the same `float` addition at every step,
whatever the other locals are. -/
theorem RobotCarSecondOrder.iterate_stepF_velocity (T : Libm ℚ) (c : Fin 2 → ℚ) (dt : ℚ)
    (n : ℕ) (st : CarSOState ℚ) :
    ((RobotCarSecondOrder.stepF T c dt)^[n] st).velocity
        = (fun v => toFloat (toDouble (v + toDouble (c 0 * dt))))^[n] st.velocity ∧
    ((RobotCarSecondOrder.stepF T c dt)^[n] st).angularVelocity
        = (fun w => toFloat (toDouble (w + toDouble (c 1 * dt))))^[n] st.angularVelocity := by
  induction n generalizing st with
  | zero => exact ⟨rfl, rfl⟩
  | succ n ih =>
    rw [Function.iterate_succ_apply, Function.iterate_succ_apply, Function.iterate_succ_apply,
      (ih _).1, (ih _).2]
    exact ⟨rfl, rfl⟩

/-- The locals of the first-order car stay `float` values. -/
theorem RobotCarFirstOrder.iterate_stepF_float_firstOrder (T : Libm ℚ) (c : Fin 2 → ℚ) (dt : ℚ) (n : ℕ)
    (s : SE2State ℚ) :
    RobotCarFirstOrder.localsF
        ((RobotCarFirstOrder.stepF T c dt)^[n] (RobotCarFirstOrder.localsF s))
      = (RobotCarFirstOrder.stepF T c dt)^[n] (RobotCarFirstOrder.localsF s) := by
  cases n with
  | zero =>
    simp [RobotCarFirstOrder.localsF, SE2State.getX, SE2State.getY, SE2State.getYaw,
      toFloat_toFloat]
  | succ n =>
    rw [Function.iterate_succ_apply']
    simp [RobotCarFirstOrder.localsF, RobotCarFirstOrder.stepF, SE2State.getX, SE2State.getY,
      SE2State.getYaw, toFloat_toFloat]

/-- The locals of the second-order car stay `float` values. -/
theorem RobotCarSecondOrder.iterate_stepF_float_secondOrder (T : Libm ℚ) (c : Fin 2 → ℚ) (dt : ℚ) (n : ℕ)
    (s : CarSOState ℚ) :
    RobotCarSecondOrder.localsF
        ((RobotCarSecondOrder.stepF T c dt)^[n] (RobotCarSecondOrder.localsF s))
      = (RobotCarSecondOrder.stepF T c dt)^[n] (RobotCarSecondOrder.localsF s) := by
  cases n with
  | zero =>
    simp [RobotCarSecondOrder.localsF, CarSOState.getX, CarSOState.getY, CarSOState.getYaw,
      CarSOState.getVelocity, CarSOState.getAngularVelocity, toFloat_toFloat]
  | succ n =>
    rw [Function.iterate_succ_apply']
    simp [RobotCarSecondOrder.localsF, RobotCarSecondOrder.stepF, CarSOState.getX,
      CarSOState.getY, CarSOState.getYaw, CarSOState.getVelocity,
      CarSOState.getAngularVelocity, toFloat_toFloat]

/-- The first-order car with `ω = 0`, for a duration of at least one step that runs `n` bodies:
`n` `float` additions to `x` and to `y`, heading narrowed and normalised. -/
theorem RobotCarFirstOrder.propagateF_straight (T : Libm ℚ) (s : SE2State ℚ) (c : Fin 2 → ℚ)
    (d : ℚ) (n : ℕ) (hw : c 1 = 0) (hge : integration_dtF ≤ toFloat d)
    (hrun : RunsBodies d n) :
    ∃ N, ∀ fuel, N ≤ fuel → ∀ res : SE2State ℚ,
      RobotCarFirstOrder.propagateF fuel T s c d res
        = some ⟨(fun x' => toFloat (toDouble (x' + toDouble (toDouble
              (c 0 * toFloat (T.cosf (toFloat s.yaw))) * integration_dtF))))^[n] (toFloat s.x),
            (fun y' => toFloat (toDouble (y' + toDouble (toDouble
              (c 0 * toFloat (T.sinf (toFloat s.yaw))) * integration_dtF))))^[n] (toFloat s.y),
            enforceBounds T (toFloat s.yaw)⟩ := by
  obtain ⟨N, hN⟩ := integrateF_of_runsBodies (RobotCarFirstOrder.stepF T c) d n hrun hge
    (RobotCarFirstOrder.localsF s)
  refine ⟨N, fun fuel hf res => ?_⟩
  unfold RobotCarFirstOrder.propagateF
  rw [hN fuel hf]
  have hit := RobotCarFirstOrder.iterate_stepF_straight T c hw integration_dtF n
    (toFloat s.x) (toFloat s.y) (toFloat s.yaw) (toFloat_toFloat _)
  have hloc : RobotCarFirstOrder.localsF s = ⟨toFloat s.x, toFloat s.y, toFloat s.yaw⟩ := rfl
  rw [hloc, hit]
  rfl

/-- Steps of the first-order car at unit speed along the heading `0`: `n` `float` additions of
`0.1f` to `x`. -/
theorem RobotCarFirstOrder.iterate_stepF_unit_speed (T : Libm ℚ) (hc : T.cosf 0 = 1)
    (hs : T.sinf 0 = 0) (n : ℕ) (x0 : ℚ) :
    (RobotCarFirstOrder.stepF T ![1, 0] integration_dtF)^[n] ⟨x0, 0, 0⟩
      = ⟨(fun x : ℚ => toFloat (toDouble (x + integration_dtF)))^[n] x0, 0, 0⟩ := by
  have hd : toDouble integration_dtF = integration_dtF := by
    rw [← toFloat_integration_dtF, toDouble_toFloat]
  have hone : toDouble 1 = 1 := by
    rw [← toFloat_one, toDouble_toFloat]
  have hfx : (fun x' : ℚ => toFloat (toDouble (x' + toDouble (toDouble
      ((![1, 0] : Fin 2 → ℚ) 0 * toFloat (T.cosf (0 : ℚ))) * integration_dtF))))
      = fun x : ℚ => toFloat (toDouble (x + integration_dtF)) := by
    funext x
    simp [hc, toFloat_one, hone, hd]
  have hfy : (fun y' : ℚ => toFloat (toDouble (y' + toDouble (toDouble
      ((![1, 0] : Fin 2 → ℚ) 0 * toFloat (T.sinf (0 : ℚ))) * integration_dtF))))
      = fun y : ℚ => toFloat (toDouble y) := by
    funext y
    simp [toFloat_zero, hs, toDouble_zero]
  have hy0 : (fun y : ℚ => toFloat (toDouble y))^[n] 0 = 0 :=
    Function.iterate_fixed (by simp [toDouble_zero, toFloat_zero]) n
  rw [RobotCarFirstOrder.iterate_stepF_straight T ![1, 0] (by simp) integration_dtF n x0 0 0
    toFloat_zero, hfx, hfy, hy0]

/-- The first-order car at unit speed along the heading `0`, from `(x0, 0, 0)`: `n` `float`
additions of `0.1f` to `x0`. -/
theorem RobotCarFirstOrder.propagateF_unit_speed (T : Libm ℚ) (hc : T.cosf 0 = 1)
    (hs : T.sinf 0 = 0) (hpi : 0 < T.pi) (x0 d : ℚ) (n : ℕ) (hx0 : toFloat x0 = x0)
    (hge : integration_dtF ≤ toFloat d) (hrun : RunsBodies d n) :
    ∃ N, ∀ fuel, N ≤ fuel → ∀ res : SE2State ℚ,
      RobotCarFirstOrder.propagateF fuel T ⟨x0, 0, 0⟩ ![1, 0] d res
        = some ⟨(fun x : ℚ => toFloat (toDouble (x + integration_dtF)))^[n] x0, 0, 0⟩ := by
  obtain ⟨N, hN⟩ := integrateF_of_runsBodies (RobotCarFirstOrder.stepF T ![1, 0]) d n hrun hge
    (RobotCarFirstOrder.localsF ⟨x0, 0, 0⟩)
  refine ⟨N, fun fuel hf res => ?_⟩
  have hcan : Canonical T (0 : ℚ) := ⟨by linarith, hpi.le⟩
  have hloc : RobotCarFirstOrder.localsF ⟨x0, 0, 0⟩ = (⟨x0, 0, 0⟩ : SE2State ℚ) := by
    simp [RobotCarFirstOrder.localsF, SE2State.getX, SE2State.getY, SE2State.getYaw, hx0,
      toFloat_zero]
  unfold RobotCarFirstOrder.propagateF
  rw [hN fuel hf, hloc, RobotCarFirstOrder.iterate_stepF_unit_speed T hc hs]
  simp [RobotCarFirstOrder.writeResult, SE2State.setX, SE2State.setY, SE2State.setYaw,
    enforceBounds_of_canonical T 0 hcan]

end ResultsF

/-! Claims -/

section Claims

variable {K : Type} [LinearOrderedField K] [FloorRing K]

/-- C1 (as stated) fails: the first-order car started at `x = 1 + 2^-30` (a `double`), heading
`0`, returns `x = 1` for the duration `0`, because `x` is read into a `float` local; with
`fuel` turns allowed, for every `fuel ≥ 1`. -/
theorem C1_zero_duration_counterexample :
    toDouble (1073741825 / 1073741824) = 1073741825 / 1073741824 ∧
    Canonical ratLibm (0 : ℚ) ∧
    (∀ fuel, 1 ≤ fuel →
      RobotCarFirstOrder.propagateF fuel ratLibm ⟨1073741825 / 1073741824, 0, 0⟩ ![1, 0] 0
        ⟨0, 0, 0⟩ = some ⟨1, 0, 0⟩) ∧
    (⟨1, 0, 0⟩ : SE2State ℚ) ≠ ⟨1073741825 / 1073741824, 0, 0⟩ := by
  have hx : toFloat (1073741825 / 1073741824) = 1 :=
    toFloat_eval _ _ 0 (by norm_num [abs_of_pos]) (by norm_num [abs_of_pos])
      (by norm_num [roundEven])
  refine ⟨?_, by norm_num [Canonical, ratLibm], ?_, ?_⟩
  · exact toDouble_eval _ _ 0 (by norm_num [abs_of_pos]) (by norm_num [abs_of_pos])
      (by norm_num [roundEven])
  · intro fuel hfuel
    rw [(propagateF_zero ratLibm fuel hfuel).1]
    simp only [hx, toFloat_zero]
    rw [enforceBounds_of_canonical ratLibm 0 (by norm_num [Canonical, ratLibm])]
  · intro h
    have := congrArg SE2State.x h
    norm_num at this

/-- C1 (amended): for the duration zero the loop body runs once with `dt = 0` and changes no
local, so each of the three `propagate` functions returns the start state with every field
narrowed to `float` and the heading(s) normalised; the result equals the start state in every
field when the fields of the start state are `float` values and its headings are in the
canonical range (for the trailer rig: states of the robot's space, non-zero lengths). -/
theorem C1_zero_duration_narrowing (T : Libm ℚ) (fuel : ℕ) (hfuel : 1 ≤ fuel) :
    (∀ (s : SE2State ℚ) (c : Fin 2 → ℚ) (res : SE2State ℚ),
      RobotCarFirstOrder.propagateF fuel T s c 0 res
          = some ⟨toFloat s.x, toFloat s.y, enforceBounds T (toFloat s.yaw)⟩ ∧
      (toFloat s.x = s.x → toFloat s.y = s.y → toFloat s.yaw = s.yaw → Canonical T s.yaw →
        RobotCarFirstOrder.propagateF fuel T s c 0 res = some s)) ∧
    (∀ (s : CarSOState ℚ) (c : Fin 2 → ℚ) (res : CarSOState ℚ),
      RobotCarSecondOrder.propagateF fuel T s c 0 res
          = some ⟨toFloat s.x, toFloat s.y, enforceBounds T (toFloat s.yaw),
              toFloat s.velocity, toFloat s.angularVelocity⟩ ∧
      (toFloat s.x = s.x → toFloat s.y = s.y → toFloat s.yaw = s.yaw →
        toFloat s.velocity = s.velocity → toFloat s.angularVelocity = s.angularVelocity →
        Canonical T s.yaw →
        RobotCarSecondOrder.propagateF fuel T s c 0 res = some s)) ∧
    (∀ (r : RobotCarFirstOrderWithTrailers ℚ) (s : TrailerState ℚ) (c : Fin 2 → ℚ)
        (res : TrailerState ℚ), r.L_ ≠ 0 → (∀ h ∈ r.hitch_lengths_, h ≠ 0) →
        RobotCarFirstOrderWithTrailers.WellFormed r s →
        RobotCarFirstOrderWithTrailers.WellFormed r res →
      RobotCarFirstOrderWithTrailers.propagateF fuel r T s c 0 res
          = some ⟨toFloat s.x, toFloat s.y, (List.range (r.hitch_lengths_.length + 1)).map
              (fun i => enforceBounds T (toFloat (s.getTheta i)))⟩ ∧
      (toFloat s.x = s.x → toFloat s.y = s.y →
        (∀ a ∈ s.theta, toFloat a = a ∧ Canonical T a) →
        RobotCarFirstOrderWithTrailers.propagateF fuel r T s c 0 res = some s)) := by
  obtain ⟨h1, h2, h3⟩ := propagateF_zero T fuel hfuel
  refine ⟨?_, ?_, ?_⟩
  · intro s c res
    refine ⟨h1 s c res, fun hx hy hyaw hcan => ?_⟩
    rw [h1 s c res, hx, hy, hyaw, enforceBounds_of_canonical T _ hcan]
  · intro s c res
    refine ⟨h2 s c res, fun hx hy hyaw hv hw hcan => ?_⟩
    rw [h2 s c res, hx, hy, hyaw, hv, hw, enforceBounds_of_canonical T _ hcan]
  · intro r s c res _ _ hs hres
    refine ⟨h3 r s c res hres, fun hx hy hall => ?_⟩
    have hlen : s.theta.length = r.hitch_lengths_.length + 1 := hs
    rw [h3 r s c res hres, hx, hy, ← hlen]
    have hmap : (List.range s.theta.length).map
        (fun i => enforceBounds T (toFloat (s.getTheta i))) = s.theta := by
      conv_rhs => rw [← map_getD_range s.theta 0]
      apply List.map_congr_left
      intro i hi
      have hi2 : i < s.theta.length := List.mem_range.mp hi
      have hmem : s.theta.getD i 0 ∈ s.theta := by
        rw [List.getD_eq_getElem _ _ hi2]
        exact List.getElem_mem hi2
      unfold TrailerState.getTheta
      rw [(hall _ hmem).1, enforceBounds_of_canonical T _ (hall _ hmem).2]
    rw [hmap]

/-- C1 (amended), at concrete inputs: a first-order car whose fields are `float` values. -/
theorem C1_zero_duration_narrowing_witness :
    RobotCarFirstOrder.propagateF 1 ratLibm ⟨1 / 2, 1 / 4, 1⟩ ![1, 1] 0 ⟨0, 0, 0⟩
      = some ⟨1 / 2, 1 / 4, 1⟩ :=
  ((C1_zero_duration_narrowing ratLibm 1 (le_refl 1)).1 ⟨1 / 2, 1 / 4, 1⟩ ![1, 1] ⟨0, 0, 0⟩).2
    (toFloat_eval _ _ (-1) (by norm_num [abs_of_pos]) (by norm_num [abs_of_pos])
      (by norm_num [roundEven]))
    (toFloat_eval _ _ (-2) (by norm_num [abs_of_pos]) (by norm_num [abs_of_pos])
      (by norm_num [roundEven]))
    toFloat_one (by norm_num [Canonical, ratLibm])

/-- C3 (as stated) fails: from `(0, 0, 0)` with control `(1, 0)` and duration `1.0` the loop
runs nine bodies, not ten, and the result is `x = 1887437/2097152` (about `0.9000001`), not
`1.0`. -/
theorem C3_straight_line_counterexample :
    RunsBodies 1 9 ∧
    (∃ N, ∀ fuel, N ≤ fuel →
      RobotCarFirstOrder.propagateF fuel ratLibm ⟨0, 0, 0⟩ ![1, 0] 1 ⟨0, 0, 0⟩
        = some ⟨1887437 / 2097152, 0, 0⟩) ∧
    (⟨1887437 / 2097152, 0, 0⟩ : SE2State ℚ)
      ≠ ⟨0 + 1 * ratLibm.cosf 0 * 1, 0 + 1 * ratLibm.sinf 0 * 1, 0⟩ := by
  refine ⟨runsBodies_one, ?_, ?_⟩
  · obtain ⟨N, hN⟩ := RobotCarFirstOrder.propagateF_unit_speed ratLibm
      (by norm_num [ratLibm]) (by norm_num [ratLibm]) (by norm_num [ratLibm]) 0 1 9
      toFloat_zero (by rw [toFloat_one]; norm_num [integration_dtF]) runsBodies_one
    refine ⟨N, fun fuel hf => ?_⟩
    rw [hN fuel hf, accumulate_dtF.2.2.1]
  · intro h
    have := congrArg SE2State.x h
    norm_num [ratLibm] at this

/-- C3 (amended): straight-line integration of the first-order car in `float`.  With `ω = 0`
and a duration `d` with `0.1f ≤ (float) d < 2^20`, the loop ends after some number `n ≥ 1` of
bodies and `propagate` returns the heading narrowed to `float` and normalised, and `x`, `y`
after `n` `float` additions of the increments `v·cosθ·0.1f` and `v·sinθ·0.1f` (each evaluated
in `double`); in particular from `(0, 0, 0)` with control `(1, 0)` and duration `1.0` the loop
runs nine bodies and the result is `x = 1887437/2097152`, `y = 0`, `θ = 0` (given
`cosf 0 = 1`, `sinf 0 = 0`). -/
theorem C3_straight_line_binary (T : Libm ℚ) :
    (∀ (s : SE2State ℚ) (c : Fin 2 → ℚ) (d : ℚ), c 1 = 0 →
      integration_dtF ≤ toFloat d → toFloat d < 2 ^ 20 →
      ∃ n, 1 ≤ n ∧ RunsBodies d n ∧ ∃ N, ∀ fuel, N ≤ fuel → ∀ res : SE2State ℚ,
        RobotCarFirstOrder.propagateF fuel T s c d res
          = some ⟨(fun x' => toFloat (toDouble (x' + toDouble (toDouble
                (c 0 * toFloat (T.cosf (toFloat s.yaw))) * integration_dtF))))^[n]
                (toFloat s.x),
              (fun y' => toFloat (toDouble (y' + toDouble (toDouble
                (c 0 * toFloat (T.sinf (toFloat s.yaw))) * integration_dtF))))^[n]
                (toFloat s.y),
              enforceBounds T (toFloat s.yaw)⟩) ∧
    (T.cosf 0 = 1 → T.sinf 0 = 0 → 0 < T.pi →
      RunsBodies 1 9 ∧ ∃ N, ∀ fuel, N ≤ fuel → ∀ res : SE2State ℚ,
        RobotCarFirstOrder.propagateF fuel T ⟨0, 0, 0⟩ ![1, 0] 1 res
          = some ⟨1887437 / 2097152, 0, 0⟩) := by
  constructor
  · intro s c d hw hge hlt
    obtain ⟨n, hn1, _, hrun⟩ := runsBodies_exists d hlt
    exact ⟨n, hn1, hrun, RobotCarFirstOrder.propagateF_straight T s c d n hw hge hrun⟩
  · intro hc hs hpi
    refine ⟨runsBodies_one, ?_⟩
    obtain ⟨N, hN⟩ := RobotCarFirstOrder.propagateF_unit_speed T hc hs hpi 0 1 9
      toFloat_zero (by rw [toFloat_one]; norm_num [integration_dtF]) runsBodies_one
    refine ⟨N, fun fuel hf res => ?_⟩
    rw [hN fuel hf res, accumulate_dtF.2.2.1]

/-- C3 (amended), at concrete inputs: the duration `1.0` with the instance `ratLibm`. -/
theorem C3_straight_line_binary_witness :
    RunsBodies 1 9 ∧ ∃ N, ∀ fuel, N ≤ fuel → ∀ res : SE2State ℚ,
      RobotCarFirstOrder.propagateF fuel ratLibm ⟨0, 0, 0⟩ ![1, 0] 1 res
        = some ⟨1887437 / 2097152, 0, 0⟩ :=
  (C3_straight_line_binary ratLibm).2 (by norm_num [ratLibm]) (by norm_num [ratLibm])
    (by norm_num [ratLibm])

/-- C4 (as stated) fails: for `d = 1.0`, `⌊d / 0.1⌋ = 10`, but the loop runs nine bodies, and
the result of the first-order car (from `(0, 0, 0)`, control `(1, 0)`) is the nine-step value
`1887437/2097152`, not the ten-step value `8388609/8388608`. -/
theorem C4_remainder_truncation_counterexample :
    ⌊(1 : ℚ) / (1 / 10)⌋₊ = 10 ∧
    RunsBodies 1 9 ∧
    (∃ N, ∀ fuel, N ≤ fuel →
      RobotCarFirstOrder.propagateF fuel ratLibm ⟨0, 0, 0⟩ ![1, 0] 1 ⟨0, 0, 0⟩
        = some ⟨1887437 / 2097152, 0, 0⟩) ∧
    RobotCarFirstOrder.writeResult ratLibm
        ((RobotCarFirstOrder.stepF ratLibm ![1, 0] integration_dtF)^[10]
          (RobotCarFirstOrder.localsF ⟨0, 0, 0⟩)) ⟨0, 0, 0⟩
      = ⟨8388609 / 8388608, 0, 0⟩ ∧
    (1887437 / 2097152 : ℚ) ≠ 8388609 / 8388608 := by
  refine ⟨by norm_num, runsBodies_one, ?_, ?_, by norm_num⟩
  · obtain ⟨N, hN⟩ := RobotCarFirstOrder.propagateF_unit_speed ratLibm
      (by norm_num [ratLibm]) (by norm_num [ratLibm]) (by norm_num [ratLibm]) 0 1 9
      toFloat_zero (by rw [toFloat_one]; norm_num [integration_dtF]) runsBodies_one
    refine ⟨N, fun fuel hf => ?_⟩
    rw [hN fuel hf, accumulate_dtF.2.2.1]
  · have hloc : RobotCarFirstOrder.localsF ⟨0, 0, 0⟩ = (⟨0, 0, 0⟩ : SE2State ℚ) := by
      simp [RobotCarFirstOrder.localsF, SE2State.getX, SE2State.getY, SE2State.getYaw,
        toFloat_zero]
    rw [hloc, RobotCarFirstOrder.iterate_stepF_unit_speed ratLibm (by norm_num [ratLibm])
      (by norm_num [ratLibm]), accumulate_dtF.2.2.2]
    simp [RobotCarFirstOrder.writeResult, SE2State.setX, SE2State.setY, SE2State.setYaw,
      enforceBounds_of_canonical ratLibm 0 (by norm_num [Canonical, ratLibm])]

/-- C4 (amended): remainder truncation in `float`.  For a duration `d` with
`0.1f ≤ (float) d < 2^20` the loop ends after some number `n ≥ 1` of bodies, the same for the
three models; every body runs with `dt = 0.1f`, so `propagate` returns those `n` full Euler
steps from the narrowed start state, followed by the normalisation of the heading(s), and no
partial step (for the trailer rig: result buffer of the robot's space, non-zero lengths). -/
theorem C4_full_steps_binary (T : Libm ℚ) (d : ℚ) (hge : integration_dtF ≤ toFloat d)
    (hlt : toFloat d < 2 ^ 20) :
    ∃ n, 1 ≤ n ∧ RunsBodies d n ∧
      (∀ (s : SE2State ℚ) (c : Fin 2 → ℚ), ∃ N, ∀ fuel, N ≤ fuel → ∀ res : SE2State ℚ,
        RobotCarFirstOrder.propagateF fuel T s c d res
          = some ⟨((RobotCarFirstOrder.stepF T c integration_dtF)^[n]
                (RobotCarFirstOrder.localsF s)).x,
              ((RobotCarFirstOrder.stepF T c integration_dtF)^[n]
                (RobotCarFirstOrder.localsF s)).y,
              enforceBounds T ((RobotCarFirstOrder.stepF T c integration_dtF)^[n]
                (RobotCarFirstOrder.localsF s)).yaw⟩) ∧
      (∀ (s : CarSOState ℚ) (c : Fin 2 → ℚ), ∃ N, ∀ fuel, N ≤ fuel → ∀ res : CarSOState ℚ,
        RobotCarSecondOrder.propagateF fuel T s c d res
          = some ⟨((RobotCarSecondOrder.stepF T c integration_dtF)^[n]
                (RobotCarSecondOrder.localsF s)).x,
              ((RobotCarSecondOrder.stepF T c integration_dtF)^[n]
                (RobotCarSecondOrder.localsF s)).y,
              enforceBounds T ((RobotCarSecondOrder.stepF T c integration_dtF)^[n]
                (RobotCarSecondOrder.localsF s)).yaw,
              ((RobotCarSecondOrder.stepF T c integration_dtF)^[n]
                (RobotCarSecondOrder.localsF s)).velocity,
              ((RobotCarSecondOrder.stepF T c integration_dtF)^[n]
                (RobotCarSecondOrder.localsF s)).angularVelocity⟩) ∧
      (∀ (r : RobotCarFirstOrderWithTrailers ℚ) (s : TrailerState ℚ) (c : Fin 2 → ℚ),
        r.L_ ≠ 0 → (∀ h ∈ r.hitch_lengths_, h ≠ 0) →
        ∃ N, ∀ fuel, N ≤ fuel → ∀ res : TrailerState ℚ,
          RobotCarFirstOrderWithTrailers.WellFormed r res →
          RobotCarFirstOrderWithTrailers.propagateF fuel r T s c d res
            = some ⟨((RobotCarFirstOrderWithTrailers.stepF r T c integration_dtF)^[n]
                  (RobotCarFirstOrderWithTrailers.localsF r s)).x,
                ((RobotCarFirstOrderWithTrailers.stepF r T c integration_dtF)^[n]
                  (RobotCarFirstOrderWithTrailers.localsF r s)).y,
                (List.range (r.hitch_lengths_.length + 1)).map (fun i => enforceBounds T
                  (((RobotCarFirstOrderWithTrailers.stepF r T c integration_dtF)^[n]
                    (RobotCarFirstOrderWithTrailers.localsF r s)).theta.getD i 0))⟩) := by
  obtain ⟨n, hn1, _, hrun⟩ := runsBodies_exists d hlt
  refine ⟨n, hn1, hrun, ?_, ?_, ?_⟩
  · intro s c
    obtain ⟨N, hN⟩ := integrateF_of_runsBodies (RobotCarFirstOrder.stepF T c) d n hrun hge
      (RobotCarFirstOrder.localsF s)
    refine ⟨N, fun fuel hf res => ?_⟩
    unfold RobotCarFirstOrder.propagateF
    rw [hN fuel hf]
    rfl
  · intro s c
    obtain ⟨N, hN⟩ := integrateF_of_runsBodies (RobotCarSecondOrder.stepF T c) d n hrun hge
      (RobotCarSecondOrder.localsF s)
    refine ⟨N, fun fuel hf res => ?_⟩
    unfold RobotCarSecondOrder.propagateF
    rw [hN fuel hf]
    rfl
  · intro r s c _ _
    obtain ⟨N, hN⟩ := integrateF_of_runsBodies (RobotCarFirstOrderWithTrailers.stepF r T c) d n
      hrun hge (RobotCarFirstOrderWithTrailers.localsF r s)
    refine ⟨N, fun fuel hf res hres => ?_⟩
    unfold RobotCarFirstOrderWithTrailers.propagateF
    rw [hN fuel hf, Option.map_some',
      RobotCarFirstOrderWithTrailers.writeResult_eq r T _ res hres]

/-- C4 (amended), at concrete inputs: the duration `0.5`. -/
theorem C4_full_steps_binary_witness :
    ∃ n, 1 ≤ n ∧ RunsBodies (1 / 2) n ∧
      ∀ (s : SE2State ℚ) (c : Fin 2 → ℚ), ∃ N, ∀ fuel, N ≤ fuel → ∀ res : SE2State ℚ,
        RobotCarFirstOrder.propagateF fuel ratLibm s c (1 / 2) res
          = some ⟨((RobotCarFirstOrder.stepF ratLibm c integration_dtF)^[n]
                (RobotCarFirstOrder.localsF s)).x,
              ((RobotCarFirstOrder.stepF ratLibm c integration_dtF)^[n]
                (RobotCarFirstOrder.localsF s)).y,
              enforceBounds ratLibm ((RobotCarFirstOrder.stepF ratLibm c integration_dtF)^[n]
                (RobotCarFirstOrder.localsF s)).yaw⟩ := by
  have hhalf : toFloat (1 / 2) = 1 / 2 :=
    toFloat_eval _ _ (-1) (by norm_num [abs_of_pos]) (by norm_num [abs_of_pos])
      (by norm_num [roundEven])
  obtain ⟨n, h1, h2, h3, _⟩ := C4_full_steps_binary ratLibm (1 / 2)
    (by rw [hhalf]; norm_num [integration_dtF]) (by rw [hhalf]; norm_num)
  exact ⟨n, h1, h2, h3⟩

/-- C5: propagation keeps headings canonical.  For each model, every start state, control and
duration (in particular every duration `≥ 0`), each heading written by `propagate` lies in the
canonical range `(-π, π]` and is congruent modulo `2π` to the value accumulated by the Euler
loop (for the trailer rig: every `θ_i`, `i = 0 .. n`, the result buffer being a state of the
robot's space). -/
theorem C5_headings_canonical (T : Libm K) (hpi : 0 < T.pi) (d : K) :
    (∀ (s : SE2State K) (c : Fin 2 → K) (res : SE2State K),
        Canonical T (RobotCarFirstOrder.propagate T s c d res).yaw ∧
        CongrMod2Pi T (RobotCarFirstOrder.propagate T s c d res).yaw
          (RobotCarFirstOrder.integrated T s c d).yaw) ∧
    (∀ (s : CarSOState K) (c : Fin 2 → K) (res : CarSOState K),
        Canonical T (RobotCarSecondOrder.propagate T s c d res).yaw ∧
        CongrMod2Pi T (RobotCarSecondOrder.propagate T s c d res).yaw
          (RobotCarSecondOrder.integrated T s c d).yaw) ∧
    (∀ (r : RobotCarFirstOrderWithTrailers K) (s : TrailerState K) (c : Fin 2 → K)
        (res : TrailerState K) (i : ℕ),
        RobotCarFirstOrderWithTrailers.WellFormed r res → i ≤ r.hitch_lengths_.length →
        Canonical T ((RobotCarFirstOrderWithTrailers.propagate r T s c d res).getTheta i) ∧
        CongrMod2Pi T ((RobotCarFirstOrderWithTrailers.propagate r T s c d res).getTheta i)
          ((RobotCarFirstOrderWithTrailers.integrated r T s c d).theta.getD i 0)) := by
  refine ⟨?_, ?_, ?_⟩
  · intro s c res
    rw [RobotCarFirstOrder.propagate_eq_firstOrder]
    exact ⟨enforceBounds_canonical T hpi _, enforceBounds_congr T _⟩
  · intro s c res
    rw [RobotCarSecondOrder.propagate_eq_secondOrder]
    exact ⟨enforceBounds_canonical T hpi _, enforceBounds_congr T _⟩
  · intro r s c res i hres hi
    rw [RobotCarFirstOrderWithTrailers.propagate_eq_trailers r T s c d res hres]
    have hget : TrailerState.getTheta
        (⟨(RobotCarFirstOrderWithTrailers.integrated r T s c d).x,
          (RobotCarFirstOrderWithTrailers.integrated r T s c d).y,
          (List.range (r.hitch_lengths_.length + 1)).map (fun j => enforceBounds T
            ((RobotCarFirstOrderWithTrailers.integrated r T s c d).theta.getD j 0))⟩ :
          TrailerState K) i
        = enforceBounds T
            ((RobotCarFirstOrderWithTrailers.integrated r T s c d).theta.getD i 0) := by
      unfold TrailerState.getTheta
      have hi2 : i < r.hitch_lengths_.length + 1 := Nat.lt_succ_of_le hi
      simp [List.getD_eq_getElem?_getD, hi2]
    rw [hget]
    exact ⟨enforceBounds_canonical T hpi _, enforceBounds_congr T _⟩

/-- C5, at concrete inputs: the first-order car turning for one second. -/
theorem C5_headings_canonical_witness :
    (0 : ℚ) < ratLibm.pi ∧
    Canonical ratLibm
      (RobotCarFirstOrder.propagate ratLibm ⟨0, 0, 3⟩ ![1, 5] 1 ⟨0, 0, 0⟩).yaw :=
  ⟨by norm_num [ratLibm],
   (((C5_headings_canonical ratLibm (by norm_num [ratLibm]) 1).1)
      ⟨0, 0, 3⟩ ![1, 5] ⟨0, 0, 0⟩).1⟩

/-- C6 (as stated) fails: `setYaw` of the second-order car state is a plain store, so assigning
`4.0` leaves `4.0`, which is outside the canonical range. -/
theorem C6_setYaw_counterexample :
    (CarSOState.setYaw (⟨0, 0, 0, 0, 0⟩ : CarSOState ℚ) 4).getYaw = 4 ∧
    ¬ Canonical ratLibm (CarSOState.setYaw (⟨0, 0, 0, 0, 0⟩ : CarSOState ℚ) 4).getYaw := by
  constructor
  · rfl
  · norm_num [Canonical, ratLibm, CarSOState.setYaw, CarSOState.getYaw]

/-- C6 (amended): `setTheta(i, a)` of the trailer-rig state leaves in component `i` a value of
the canonical range congruent to `a` modulo `2π` (assigning `4.0` stores `4.0 - 2π`), while
`setYaw` of the second-order car state stores `a` unchanged. -/
theorem C6_heading_wrap_setTheta (T : Libm K) (hpi : 0 < T.pi) :
    (∀ (s : TrailerState K) (i : ℕ) (a : K), i < s.theta.length →
        Canonical T ((s.setTheta T i a).getTheta i) ∧
        CongrMod2Pi T ((s.setTheta T i a).getTheta i) a) ∧
    (∀ (s : TrailerState K) (i : ℕ), i < s.theta.length → T.pi < 4 → 4 ≤ 3 * T.pi →
        (s.setTheta T i 4).getTheta i = 4 - 2 * T.pi) ∧
    (∀ (s : CarSOState K) (a : K), (s.setYaw a).getYaw = a) := by
  have hget : ∀ (s : TrailerState K) (i : ℕ) (a : K), i < s.theta.length →
      (s.setTheta T i a).getTheta i = enforceBounds T a := by
    intro s i a hi
    unfold TrailerState.getTheta
    rw [TrailerState.setTheta_theta]
    simp [List.getD_eq_getElem?_getD, List.getElem?_set, hi]
  refine ⟨?_, ?_, ?_⟩
  · intro s i a hi
    rw [hget s i a hi]
    exact ⟨enforceBounds_canonical T hpi _, enforceBounds_congr T _⟩
  · intro s i hi h4 h43
    rw [hget s i 4 hi]
    have h2pi : (0 : K) < 2 * T.pi := by positivity
    have hc : ⌈((4 : K) - T.pi) / (2 * T.pi)⌉ = 1 := by
      rw [Int.ceil_eq_iff]
      constructor
      · rw [lt_div_iff₀ h2pi]; push_cast; linarith
      · rw [div_le_iff₀ h2pi]; push_cast; linarith
    unfold enforceBounds
    rw [hc]; simp
  · intro s a
    rfl

/-- C6 (amended), at concrete inputs: `setTheta(1, 4.0)` on a one-trailer state. -/
theorem C6_heading_wrap_setTheta_witness :
    (0 : ℚ) < ratLibm.pi ∧
    Canonical ratLibm
      ((TrailerState.setTheta ratLibm (⟨0, 0, [0, 0]⟩ : TrailerState ℚ) 1 4).getTheta 1) ∧
    (TrailerState.setTheta ratLibm (⟨0, 0, [0, 0]⟩ : TrailerState ℚ) 1 4).getTheta 1
      = 4 - 2 * ratLibm.pi :=
  ⟨by norm_num [ratLibm],
   ((C6_heading_wrap_setTheta ratLibm (by norm_num [ratLibm])).1 ⟨0, 0, [0, 0]⟩ 1 4
      (by simp)).1,
   (C6_heading_wrap_setTheta ratLibm (by norm_num [ratLibm])).2.1 ⟨0, 0, [0, 0]⟩ 1
      (by simp) (by norm_num [ratLibm]) (by norm_num [ratLibm])⟩

/-- C7 (as stated) fails: from `(0, 0, 0, 0, 0)` with control `(0, 0)` and duration `3000000`
the loop never ends (`3000000 - 0.1f` rounds back to `3000000` in `float`), so nothing is
returned; and a rest state with `x = 1 + 2^-30` comes back with `x = 1`. -/
theorem C7_second_order_rest_counterexample :
    (∀ fuel, RobotCarSecondOrder.propagateF fuel ratLibm ⟨0, 0, 0, 0, 0⟩ ![0, 0] 3000000
      ⟨0, 0, 0, 0, 0⟩ = none) ∧
    (∀ fuel, 1 ≤ fuel →
      RobotCarSecondOrder.propagateF fuel ratLibm ⟨1073741825 / 1073741824, 0, 0, 0, 0⟩ ![0, 0]
        0 ⟨0, 0, 0, 0, 0⟩ = some ⟨1, 0, 0, 0, 0⟩) := by
  constructor
  · intro fuel
    have h : toFloat 3000000 = 3000000 :=
      toFloat_eval _ _ 21 (by norm_num [abs_of_pos]) (by norm_num [abs_of_pos])
        (by norm_num [roundEven])
    unfold RobotCarSecondOrder.propagateF
    rw [h, integrateF_never]
    rfl
  · intro fuel hfuel
    have hx : toFloat (1073741825 / 1073741824) = 1 :=
      toFloat_eval _ _ 0 (by norm_num [abs_of_pos]) (by norm_num [abs_of_pos])
        (by norm_num [roundEven])
    rw [(propagateF_zero ratLibm fuel hfuel).2.1]
    simp only [hx, toFloat_zero]
    rw [enforceBounds_of_canonical ratLibm 0 (by norm_num [Canonical, ratLibm])]

/-- C7 (amended): the second-order car at rest stays at rest, up to narrowing.  With `v = 0`,
`ω = 0`, control `(0, 0)` and a duration `d` with `(float) d < 2^20`, the loop ends and
`propagate` returns `x`, `y` and the heading narrowed to `float` (the heading normalised) and
zero velocities; this is the start state when `x`, `y`, `θ` are `float` values and `θ` is in
the canonical range, in particular for `(0, 0, 0, 0, 0)`. -/
theorem C7_second_order_rest_binary (T : Libm ℚ) (s : CarSOState ℚ) (c : Fin 2 → ℚ) (d : ℚ)
    (hv : s.velocity = 0) (hw : s.angularVelocity = 0) (ha : c 0 = 0) (hwd : c 1 = 0)
    (hd : toFloat d < 2 ^ 20) :
    ∃ N, ∀ fuel, N ≤ fuel → ∀ res : CarSOState ℚ,
      RobotCarSecondOrder.propagateF fuel T s c d res
          = some ⟨toFloat s.x, toFloat s.y, enforceBounds T (toFloat s.yaw), 0, 0⟩ ∧
      (toFloat s.x = s.x → toFloat s.y = s.y → toFloat s.yaw = s.yaw → Canonical T s.yaw →
        RobotCarSecondOrder.propagateF fuel T s c d res = some s) := by
  have hloc : RobotCarSecondOrder.localsF s
      = ⟨toFloat s.x, toFloat s.y, toFloat s.yaw, 0, 0⟩ := by
    simp [RobotCarSecondOrder.localsF, CarSOState.getX, CarSOState.getY, CarSOState.getYaw,
      CarSOState.getVelocity, CarSOState.getAngularVelocity, hv, hw, toFloat_zero]
  have hfix : ∀ dt, RobotCarSecondOrder.stepF T c dt
      ⟨toFloat s.x, toFloat s.y, toFloat s.yaw, 0, 0⟩
      = ⟨toFloat s.x, toFloat s.y, toFloat s.yaw, 0, 0⟩ := fun dt =>
    RobotCarSecondOrder.stepF_rest T c ha hwd dt _ _ _ (toFloat_toFloat _) (toFloat_toFloat _)
      (toFloat_toFloat _)
  have main : ∀ fuel, ⌊toFloat d / (integration_dtF - 1 / 32)⌋₊ < fuel →
      ∀ res : CarSOState ℚ, RobotCarSecondOrder.propagateF fuel T s c d res
        = some ⟨toFloat s.x, toFloat s.y, enforceBounds T (toFloat s.yaw), 0, 0⟩ := by
    intro fuel hf res
    unfold RobotCarSecondOrder.propagateF
    rw [hloc, integrateF_fixed _ _ hfix fuel (toFloat d) hd hf]
    rfl
  refine ⟨⌊toFloat d / (integration_dtF - 1 / 32)⌋₊ + 1, fun fuel hf res => ?_⟩
  refine ⟨main fuel hf res, fun hx hy hyaw hcan => ?_⟩
  rw [main fuel hf res, hx, hy, hyaw, enforceBounds_of_canonical T _ hcan]
  congr 1
  obtain ⟨x, y, yaw, v, w⟩ := s
  simp only at hv hw
  rw [hv, hw]

/-- C7 (amended), at concrete inputs: the state `(0, 0, 0, 0, 0)` and the duration `0.5`. -/
theorem C7_second_order_rest_binary_witness :
    ∃ N, ∀ fuel, N ≤ fuel → ∀ res : CarSOState ℚ,
      RobotCarSecondOrder.propagateF fuel ratLibm ⟨0, 0, 0, 0, 0⟩ ![0, 0] (1 / 2) res
        = some ⟨0, 0, 0, 0, 0⟩ := by
  have hhalf : toFloat (1 / 2) = 1 / 2 :=
    toFloat_eval _ _ (-1) (by norm_num [abs_of_pos]) (by norm_num [abs_of_pos])
      (by norm_num [roundEven])
  obtain ⟨N, hN⟩ := C7_second_order_rest_binary ratLibm ⟨0, 0, 0, 0, 0⟩ ![0, 0] (1 / 2) rfl rfl
    (by simp) (by simp) (by rw [hhalf]; norm_num)
  exact ⟨N, fun fuel hf res => (hN fuel hf res).2 toFloat_zero toFloat_zero toFloat_zero
    (by norm_num [Canonical, ratLibm])⟩

/-- C9: `setPosition` frame condition.  For each of the three models, after
`setPosition(state, p)` the state has `x = p(0)`, `y = p(1)`, and every other field (heading,
velocity and angular velocity of the second-order car, every trailer heading) is unchanged. -/
theorem C9_setPosition_frame (p : Fin 3 → K) :
    (∀ s : SE2State K,
        (RobotCarFirstOrder.setPosition s p).getX = p 0 ∧
        (RobotCarFirstOrder.setPosition s p).getY = p 1 ∧
        (RobotCarFirstOrder.setPosition s p).getYaw = s.getYaw) ∧
    (∀ s : CarSOState K,
        (RobotCarSecondOrder.setPosition s p).getX = p 0 ∧
        (RobotCarSecondOrder.setPosition s p).getY = p 1 ∧
        (RobotCarSecondOrder.setPosition s p).getYaw = s.getYaw ∧
        (RobotCarSecondOrder.setPosition s p).getVelocity = s.getVelocity ∧
        (RobotCarSecondOrder.setPosition s p).getAngularVelocity = s.getAngularVelocity) ∧
    (∀ s : TrailerState K,
        (RobotCarFirstOrderWithTrailers.setPosition s p).getX = p 0 ∧
        (RobotCarFirstOrderWithTrailers.setPosition s p).getY = p 1 ∧
        (RobotCarFirstOrderWithTrailers.setPosition s p).theta = s.theta ∧
        ∀ i, (RobotCarFirstOrderWithTrailers.setPosition s p).getTheta i = s.getTheta i) :=
  ⟨fun _ => ⟨rfl, rfl, rfl⟩, fun _ => ⟨rfl, rfl, rfl, rfl, rfl⟩,
   fun _ => ⟨rfl, rfl, rfl, fun _ => rfl⟩⟩

/-- C10: the factory raises iff the identifier is unknown.  `create_robot(robotType, bounds)`
ends in the error exactly when `robotType` is none of the four known identifiers, and for each
of these it returns the corresponding model built with the fixed limits of the factory (the
trailer rigs with no hitch and with the one hitch length `0.5`). -/
theorem C10_factory (T : Libm K) (b : RealVectorBounds K) :
    (∀ robotType : String,
        (∃ e, create_robot T robotType b = Except.error e) ↔
          robotType ∉ ["car_first_order_0", "car_second_order_0",
            "car_first_order_with_0_trailers_0", "car_first_order_with_1_trailers_0"]) ∧
    (∀ robotType : String,
        (∃ e, create_robot T robotType b = Except.error e) →
          create_robot T robotType b = Except.error "Unknown robot type!") ∧
    create_robot T "not_a_robot" b = Except.error "Unknown robot type!" ∧
    create_robot T "car_first_order_0" b
      = Except.ok (Robot.carFirstOrder (RobotCarFirstOrder.new b (1 / 2) (1 / 2))) ∧
    create_robot T "car_second_order_0" b
      = Except.ok (Robot.carSecondOrder (RobotCarSecondOrder.new b (1 / 2) (1 / 2) 2 2)) ∧
    create_robot T "car_first_order_with_0_trailers_0" b
      = Except.ok (Robot.carFirstOrderWithTrailers
          (RobotCarFirstOrderWithTrailers.new b (1 / 2) (T.pi / 3) (2 / 5) [])) ∧
    create_robot T "car_first_order_with_1_trailers_0" b
      = Except.ok (Robot.carFirstOrderWithTrailers
          (RobotCarFirstOrderWithTrailers.new b (1 / 2) (T.pi / 3) (2 / 5) [1 / 2])) := by
  refine ⟨?_, ?_, ?_, ?_, ?_, ?_, ?_⟩
  · intro robotType
    unfold create_robot
    simp only [List.mem_cons, List.mem_singleton, List.not_mem_nil, or_false, not_or]
    split_ifs with h1 h2 h3 h4 <;> simp [*]
  · intro robotType
    unfold create_robot
    split_ifs with h1 h2 h3 h4 <;> simp
  · unfold create_robot
    rw [if_neg (by decide), if_neg (by decide), if_neg (by decide), if_neg (by decide)]
  · unfold create_robot
    rw [if_pos rfl]
  · unfold create_robot
    rw [if_neg (by decide), if_pos rfl]
  · unfold create_robot
    rw [if_neg (by decide), if_neg (by decide), if_pos rfl]
  · unfold create_robot
    rw [if_neg (by decide), if_neg (by decide), if_neg (by decide), if_pos rfl]

/-- C12: `isValid` is the conjunction of the bounds check and the negated collision predicate.
It returns true iff the state satisfies the bounds and the collision query on the robot's shape
posed by `getTransform(state)` reports no contact; when the bounds check fails it returns false
and no collision query has been executed (otherwise exactly that one query has). -/
theorem C12_isValid {σ G : Type} (chk : fclStateValidityChecker σ G K) (state : σ) :
    ((chk.isValid state).1 = true ↔
      (chk.satisfiesBounds state = true ∧
        chk.isCollision chk.getCollisionGeometry (chk.getTransform state) = false)) ∧
    (chk.satisfiesBounds state = false → chk.isValid state = (false, [])) ∧
    (chk.satisfiesBounds state = true →
      (chk.isValid state).2 = [(chk.getCollisionGeometry, chk.getTransform state)]) := by
  unfold fclStateValidityChecker.isValid
  cases hb : chk.satisfiesBounds state <;> simp

/-- C12, at concrete inputs: a checker whose bounds are `x ≤ 1` and whose environment collides
with everything, at a state outside the bounds. -/
theorem C12_isValid_witness :
    fclStateValidityChecker.isValid
        (⟨fun s => decide (s.x ≤ 1), (⟨1 / 2, 1 / 4, 1⟩ : Boxf ℚ),
          fun s => ⟨(s.x, s.y, 0), s.yaw⟩, fun _ _ => true⟩ :
          fclStateValidityChecker (SE2State ℚ) (Boxf ℚ) ℚ)
        ⟨2, 0, 0⟩ = (false, []) :=
  (C12_isValid
    (⟨fun s => decide (s.x ≤ 1), (⟨1 / 2, 1 / 4, 1⟩ : Boxf ℚ),
      fun s => ⟨(s.x, s.y, 0), s.yaw⟩, fun _ _ => true⟩ :
      fclStateValidityChecker (SE2State ℚ) (Boxf ℚ) ℚ)
    ⟨2, 0, 0⟩).2.1 (by simp)

/-- C13: evaluation of the source on a two-trailer rig with hitch lengths `(0.5, 1)`, headings
`(0, 0, -1)`, control `(v = 1, φ = 0)`.  The rate applied to `θ_2` is `5/3`, the documented
product divided by `hitch_lengths_[0] = 0.5`; the rate with the divisor `hitch_length[1] = 1` is
`5/6`.  After one step of `0.1`, `propagate` leaves `θ_2 = -5/6`, not `-1 + (5/6)·0.1`. -/
theorem C13_hitch_index_evaluation :
    RobotCarFirstOrderWithTrailers.thetaDot
        (RobotCarFirstOrderWithTrailers.new (⟨[], []⟩ : RealVectorBounds ℚ) (1 / 2) 1 (2 / 5)
          [1 / 2, 1])
        ratLibm ![1, 0] [0, 0, -1] 2 = 5 / 3 ∧
    thetaDotDocumented ratLibm [1 / 2, 1] (1 : ℚ) [0, 0, -1] 2 = 5 / 6 ∧
    (RobotCarFirstOrderWithTrailers.propagate
        (RobotCarFirstOrderWithTrailers.new (⟨[], []⟩ : RealVectorBounds ℚ) (1 / 2) 1 (2 / 5)
          [1 / 2, 1])
        ratLibm ⟨0, 0, [0, 0, -1]⟩ ![1, 0] integration_dt ⟨0, 0, [0, 0, 0]⟩).theta
      = [0, 0, -5 / 6] ∧
    (-5 / 6 : ℚ) ≠ -1 + thetaDotDocumented ratLibm [1 / 2, 1] (1 : ℚ) [0, 0, -1] 2
      * integration_dt := by
  refine ⟨?_, ?_, ?_, ?_⟩
  · norm_num [RobotCarFirstOrderWithTrailers.thetaDot, ratLibm,
      RobotCarFirstOrderWithTrailers.new, List.range']
  · norm_num [thetaDotDocumented, ratLibm, List.range']
  · rw [RobotCarFirstOrderWithTrailers.propagate_eq_trailers _ _ _ _ _ _
      (by simp [RobotCarFirstOrderWithTrailers.WellFormed, RobotCarFirstOrderWithTrailers.new])]
    unfold RobotCarFirstOrderWithTrailers.integrated
    rw [integrate_dt]
    norm_num [RobotCarFirstOrderWithTrailers.step, RobotCarFirstOrderWithTrailers.trailerLoop,
      RobotCarFirstOrderWithTrailers.thetaDot, ratLibm, RobotCarFirstOrderWithTrailers.new,
      List.range', List.range, List.range.loop, TrailerState.getTheta, TrailerState.getX,
      TrailerState.getY, enforceBounds, integration_dt]
  · norm_num [thetaDotDocumented, ratLibm, List.range', integration_dt]

/-- C14: evaluation of the source on a two-trailer rig with equal hitch lengths `0.5`, headings
`(1, 0, 0)`, control `(v = 1, φ = 0)`, one step of `0.1`.  From the headings held at the start
of the step the rate of `θ_2` is `0` (`θ_1 = θ_2`), so an explicit update leaves `θ_2 = 0`; the
source first moves `θ_1` to `1/6` and then computes the rate of `θ_2` from that new value, and
`propagate` returns `θ_2 = 899947/40310784`. -/
theorem C14_in_place_update_evaluation :
    RobotCarFirstOrderWithTrailers.thetaDot
        (RobotCarFirstOrderWithTrailers.new (⟨[], []⟩ : RealVectorBounds ℚ) (1 / 2) 1 (2 / 5)
          [1 / 2, 1 / 2])
        ratLibm ![1, 0] [1, 0, 0] 2 = 0 ∧
    RobotCarFirstOrderWithTrailers.trailerLoop
        (RobotCarFirstOrderWithTrailers.new (⟨[], []⟩ : RealVectorBounds ℚ) (1 / 2) 1 (2 / 5)
          [1 / 2, 1 / 2])
        ratLibm ![1, 0] integration_dt [1, 0, 0]
      = [1, 1 / 6,
          0 + RobotCarFirstOrderWithTrailers.thetaDot
            (RobotCarFirstOrderWithTrailers.new (⟨[], []⟩ : RealVectorBounds ℚ) (1 / 2) 1 (2 / 5)
              [1 / 2, 1 / 2])
            ratLibm ![1, 0] [1, 1 / 6, 0] 2 * integration_dt] ∧
    (RobotCarFirstOrderWithTrailers.propagate
        (RobotCarFirstOrderWithTrailers.new (⟨[], []⟩ : RealVectorBounds ℚ) (1 / 2) 1 (2 / 5)
          [1 / 2, 1 / 2])
        ratLibm ⟨0, 0, [1, 0, 0]⟩ ![1, 0] integration_dt ⟨0, 0, [0, 0, 0]⟩).theta
      = [1, 1 / 6, 899947 / 40310784] ∧
    (899947 / 40310784 : ℚ) ≠ 0 + RobotCarFirstOrderWithTrailers.thetaDot
        (RobotCarFirstOrderWithTrailers.new (⟨[], []⟩ : RealVectorBounds ℚ) (1 / 2) 1 (2 / 5)
          [1 / 2, 1 / 2])
        ratLibm ![1, 0] [1, 0, 0] 2 * integration_dt := by
  refine ⟨?_, ?_, ?_, ?_⟩
  · norm_num [RobotCarFirstOrderWithTrailers.thetaDot, ratLibm,
      RobotCarFirstOrderWithTrailers.new, List.range']
  · norm_num [RobotCarFirstOrderWithTrailers.trailerLoop,
      RobotCarFirstOrderWithTrailers.thetaDot, ratLibm, RobotCarFirstOrderWithTrailers.new,
      List.range', integration_dt]
  · rw [RobotCarFirstOrderWithTrailers.propagate_eq_trailers _ _ _ _ _ _
      (by simp [RobotCarFirstOrderWithTrailers.WellFormed, RobotCarFirstOrderWithTrailers.new])]
    unfold RobotCarFirstOrderWithTrailers.integrated
    rw [integrate_dt]
    norm_num [RobotCarFirstOrderWithTrailers.step, RobotCarFirstOrderWithTrailers.trailerLoop,
      RobotCarFirstOrderWithTrailers.thetaDot, ratLibm, RobotCarFirstOrderWithTrailers.new,
      List.range', List.range, List.range.loop, TrailerState.getTheta, TrailerState.getX,
      TrailerState.getY, enforceBounds, integration_dt]
  · norm_num [RobotCarFirstOrderWithTrailers.thetaDot, ratLibm,
      RobotCarFirstOrderWithTrailers.new, List.range', integration_dt]

/-- C15: part count, geometry and state shape agree.  A trailer rig constructed with `n` hitch
lengths has `numParts() = n + 1`, a geometry list of `n + 1` shapes (the tractor box, then one
box per trailer) and a state space with `n + 1` heading (`SO2`) components besides the position;
the two trailer rigs of the factory have `numParts` 1 and 2. -/
theorem C15_part_count (T : Libm K) (b : RealVectorBounds K) :
    (∀ (v_limit phi_limit L : K) (hitch_lengths : List K),
      (RobotCarFirstOrderWithTrailers.new b v_limit phi_limit L hitch_lengths).numParts
          = hitch_lengths.length + 1 ∧
      (RobotCarFirstOrderWithTrailers.new b v_limit phi_limit L hitch_lengths).geom_
          = ⟨1 / 2, 1 / 4, 1⟩ :: List.replicate hitch_lengths.length ⟨3 / 10, 1 / 4, 1⟩ ∧
      (RobotCarFirstOrderWithTrailers.new b v_limit phi_limit L hitch_lengths).geom_.length
          = (RobotCarFirstOrderWithTrailers.new b v_limit phi_limit L hitch_lengths).numParts ∧
      (RobotCarFirstOrderWithTrailers.new b v_limit phi_limit L hitch_lengths).subspaces
          = Subspace.realVector 2 :: List.replicate (hitch_lengths.length + 1) Subspace.so2 ∧
      ((RobotCarFirstOrderWithTrailers.new b v_limit phi_limit L hitch_lengths).subspaces.count
          Subspace.so2)
          = (RobotCarFirstOrderWithTrailers.new b v_limit phi_limit L hitch_lengths).numParts) ∧
    (∃ r0, create_robot T "car_first_order_with_0_trailers_0" b
        = Except.ok (Robot.carFirstOrderWithTrailers r0) ∧ r0.numParts = 1) ∧
    (∃ r1, create_robot T "car_first_order_with_1_trailers_0" b
        = Except.ok (Robot.carFirstOrderWithTrailers r1) ∧ r1.numParts = 2) := by
  refine ⟨?_, ?_, ?_⟩
  · intro v_limit phi_limit L hitch_lengths
    have hsub : (RobotCarFirstOrderWithTrailers.new b v_limit phi_limit L hitch_lengths).subspaces
        = Subspace.realVector 2 :: List.replicate (hitch_lengths.length + 1) Subspace.so2 := by
      simp [RobotCarFirstOrderWithTrailers.new, RobotCarFirstOrderWithTrailers.StateSpace.new,
        List.replicate_succ]
    refine ⟨rfl, ?_, ?_, hsub, ?_⟩
    · simp [RobotCarFirstOrderWithTrailers.new, List.eq_replicate_iff]
    · simp [RobotCarFirstOrderWithTrailers.new, RobotCarFirstOrderWithTrailers.numParts]
    · rw [hsub]
      simp [RobotCarFirstOrderWithTrailers.numParts, RobotCarFirstOrderWithTrailers.new,
        List.count_cons]
  · refine ⟨RobotCarFirstOrderWithTrailers.new b (1 / 2) (T.pi / 3) (2 / 5) [], ?_, rfl⟩
    unfold create_robot
    rw [if_neg (by decide), if_neg (by decide), if_pos rfl]
  · refine ⟨RobotCarFirstOrderWithTrailers.new b (1 / 2) (T.pi / 3) (2 / 5) [1 / 2], ?_, rfl⟩
    unfold create_robot
    rw [if_neg (by decide), if_neg (by decide), if_neg (by decide), if_pos rfl]

/-- The velocities returned by the second-order car for a duration of at least one step that
runs `n` bodies: `n` `float` additions of `a · 0.1f` and of `ω̇ · 0.1f`. -/
theorem RobotCarSecondOrder.propagateF_velocity (T : Libm ℚ) (s : CarSOState ℚ)
    (c : Fin 2 → ℚ) (d : ℚ) (n : ℕ) (hge : integration_dtF ≤ toFloat d)
    (hrun : RunsBodies d n) :
    ∃ N, ∀ fuel, N ≤ fuel → ∀ res : CarSOState ℚ,
      ∃ r, RobotCarSecondOrder.propagateF fuel T s c d res = some r ∧
        r.velocity = (fun v => toFloat (toDouble (v + toDouble (c 0 * integration_dtF))))^[n]
          (toFloat s.velocity) ∧
        r.angularVelocity
          = (fun w => toFloat (toDouble (w + toDouble (c 1 * integration_dtF))))^[n]
              (toFloat s.angularVelocity) := by
  obtain ⟨N, hN⟩ := integrateF_of_runsBodies (RobotCarSecondOrder.stepF T c) d n hrun hge
    (RobotCarSecondOrder.localsF s)
  refine ⟨N, fun fuel hf res => ?_⟩
  unfold RobotCarSecondOrder.propagateF
  rw [hN fuel hf]
  refine ⟨_, rfl, ?_, ?_⟩
  · exact (RobotCarSecondOrder.iterate_stepF_velocity T c integration_dtF n _).1
  · exact (RobotCarSecondOrder.iterate_stepF_velocity T c integration_dtF n _).2

theorem toDouble_two_integration_dtF : toDouble (2 * integration_dtF) = 2 * integration_dtF := by
  have := roundBinary_of_dyadic 53 (-1074) 13421773 (-26) (by norm_num) (by norm_num)
  have h : ((13421773 : ℤ) : ℚ) * 2 ^ (-26 : ℤ) = 2 * integration_dtF := by
    unfold integration_dtF; norm_num
  rw [h] at this
  exact this

theorem toFloat_half : toFloat (1 / 2) = 1 / 2 :=
  toFloat_eval _ _ (-1) (by norm_num [abs_of_pos]) (by norm_num [abs_of_pos])
    (by norm_num [roundEven])

/-- C16 (as stated) fails: from `v = 0.5` with `a = 2` and duration `1.0 = 10 · 0.1` the loop
runs nine bodies and the returned velocity is `2411725/1048576` (about `2.3000002`), not
`v + a·d = 2.5`. -/
theorem C16_no_velocity_clamp_counterexample :
    (∃ N, ∀ fuel, N ≤ fuel →
      ∃ r, RobotCarSecondOrder.propagateF fuel ratLibm ⟨0, 0, 0, 1 / 2, 0⟩ ![2, 0] 1
          ⟨0, 0, 0, 0, 0⟩ = some r ∧ r.velocity = 2411725 / 1048576) ∧
    (2411725 / 1048576 : ℚ) ≠ 1 / 2 + 2 * 1 := by
  refine ⟨?_, by norm_num⟩
  obtain ⟨N, hN⟩ := RobotCarSecondOrder.propagateF_velocity ratLibm ⟨0, 0, 0, 1 / 2, 0⟩
    ![2, 0] 1 9 (by rw [toFloat_one]; norm_num [integration_dtF]) runsBodies_one
  refine ⟨N, fun fuel hf => ?_⟩
  obtain ⟨r, hr, hvel, _⟩ := hN fuel hf ⟨0, 0, 0, 0, 0⟩
  refine ⟨r, hr, ?_⟩
  rw [hvel]
  simp only [Matrix.cons_val_zero, toDouble_two_integration_dtF, toFloat_half]
  exact accumulate_two_dtF.2

/-- C16 (amended): the second-order car does not clamp velocities.  For a duration `d` with
`0.1f ≤ (float) d < 2^20` the loop ends after some number `n ≥ 1` of bodies and `propagate`
returns the velocity obtained from `(float) v` by `n` `float` additions of `a · 0.1f`, and the
angular velocity obtained from `(float) ω` by `n` `float` additions of `ω̇ · 0.1f`; no bound of
the state space is read.  So the in-bounds start `v = 0.5` with the in-bounds control `a = 2`
of the factory's robot ends, after one step of `0.1f`, at a velocity above `v_limit = 0.5`. -/
theorem C16_no_velocity_clamp_binary (T : Libm ℚ) :
    (∀ (s : CarSOState ℚ) (c : Fin 2 → ℚ) (d : ℚ),
      integration_dtF ≤ toFloat d → toFloat d < 2 ^ 20 →
      ∃ n, 1 ≤ n ∧ RunsBodies d n ∧ ∃ N, ∀ fuel, N ≤ fuel → ∀ res : CarSOState ℚ,
        ∃ r, RobotCarSecondOrder.propagateF fuel T s c d res = some r ∧
          r.velocity
            = (fun v => toFloat (toDouble (v + toDouble (c 0 * integration_dtF))))^[n]
                (toFloat s.velocity) ∧
          r.angularVelocity
            = (fun w => toFloat (toDouble (w + toDouble (c 1 * integration_dtF))))^[n]
                (toFloat s.angularVelocity)) ∧
    (∀ (b : RealVectorBounds ℚ) (res : CarSOState ℚ),
      ∃ (s : CarSOState ℚ) (c : Fin 2 → ℚ),
        ((RobotCarSecondOrder.new b (1 / 2) (1 / 2) 2 2).vel_bounds.low.getD 0 0 ≤ s.velocity ∧
          s.velocity ≤ (RobotCarSecondOrder.new b (1 / 2) (1 / 2) 2 2).vel_bounds.high.getD 0 0) ∧
        ((RobotCarSecondOrder.new b (1 / 2) (1 / 2) 2 2).w_bounds.low.getD 0 0
            ≤ s.angularVelocity ∧
          s.angularVelocity
            ≤ (RobotCarSecondOrder.new b (1 / 2) (1 / 2) 2 2).w_bounds.high.getD 0 0) ∧
        (∀ i : Fin 2,
          (RobotCarSecondOrder.new b (1 / 2) (1 / 2) 2 2).cbounds.low.getD i 0 ≤ c i ∧
          c i ≤ (RobotCarSecondOrder.new b (1 / 2) (1 / 2) 2 2).cbounds.high.getD i 0) ∧
        ∃ N, ∀ fuel, N ≤ fuel →
          ∃ r, RobotCarSecondOrder.propagateF fuel T s c integration_dtF res = some r ∧
            r.velocity = 11744051 / 16777216 ∧ (1 / 2 : ℚ) < r.velocity) := by
  constructor
  · intro s c d hge hlt
    obtain ⟨n, hn1, _, hrun⟩ := runsBodies_exists d hlt
    exact ⟨n, hn1, hrun, RobotCarSecondOrder.propagateF_velocity T s c d n hge hrun⟩
  · intro b res
    refine ⟨⟨0, 0, 0, 1 / 2, 0⟩, ![2, 0], ?_, ?_, ?_, ?_⟩
    · norm_num [RobotCarSecondOrder.new]
    · norm_num [RobotCarSecondOrder.new]
    · intro i
      fin_cases i <;> norm_num [RobotCarSecondOrder.new]
    · obtain ⟨N, hN⟩ := RobotCarSecondOrder.propagateF_velocity T ⟨0, 0, 0, 1 / 2, 0⟩
        ![2, 0] integration_dtF 1
        (by rw [toFloat_integration_dtF]) runsBodies_dtF
      refine ⟨N, fun fuel hf => ?_⟩
      obtain ⟨r, hr, hvel, _⟩ := hN fuel hf res
      have hval : r.velocity = 11744051 / 16777216 := by
        rw [hvel]
        simp only [Matrix.cons_val_zero, toDouble_two_integration_dtF, toFloat_half]
        exact accumulate_two_dtF.1
      exact ⟨r, hr, hval, by rw [hval]; norm_num⟩

/-- C16 (amended), at concrete inputs: `v = 0.5`, `a = 2` and the duration `0.5`. -/
theorem C16_no_velocity_clamp_binary_witness :
    ∃ n, 1 ≤ n ∧ RunsBodies (1 / 2) n ∧ ∃ N, ∀ fuel, N ≤ fuel → ∀ res : CarSOState ℚ,
      ∃ r, RobotCarSecondOrder.propagateF fuel ratLibm ⟨0, 0, 0, 1 / 2, 0⟩ ![2, 0] (1 / 2) res
          = some r ∧
        r.velocity
          = (fun v => toFloat (toDouble (v
              + toDouble ((![2, 0] : Fin 2 → ℚ) 0 * integration_dtF))))^[n]
              (toFloat (1 / 2)) ∧
        r.angularVelocity
          = (fun w => toFloat (toDouble (w
              + toDouble ((![2, 0] : Fin 2 → ℚ) 1 * integration_dtF))))^[n]
              (toFloat 0) :=
  (C16_no_velocity_clamp_binary ratLibm).1 ⟨0, 0, 0, 1 / 2, 0⟩ ![2, 0] (1 / 2)
    (by rw [toFloat_half]; norm_num [integration_dtF]) (by rw [toFloat_half]; norm_num)

/-- C17 (as stated) fails: for the duration `0` the body of the loop runs once, more than
`0 / 0.1 = 0` times; and for the duration `3000000` the loop does not terminate. -/
theorem C17_loop_count_counterexample :
    RunsBodies 0 1 ∧ ¬ (((1 : ℕ) : ℚ) ≤ (0 : ℚ) / (1 / 10)) ∧
    (∀ fuel, loopCountF fuel 3000000 = none) := by
  refine ⟨runsBodies_lt 0 (by rw [toFloat_zero]; exact integration_dtF_pos), by norm_num, ?_⟩
  intro fuel
  have h : toFloat 3000000 = 3000000 :=
    toFloat_eval _ _ 21 (by norm_num [abs_of_pos]) (by norm_num [abs_of_pos])
      (by norm_num [roundEven])
  unfold loopCountF
  rw [h, integrateF_never]

/-- C17 (amended): for every duration `d` with `(float) d < 2^20` the integration loop of each
model terminates, after a number `n` of bodies that depends on `d` only: `n = 1` when
`(float) d < 0.1f`, and in general `1 ≤ n ≤ ⌊(float) d / (0.1f - 2^-5)⌋ + 1` (each turn lowers
the `float` `remaining_time` by at least `0.1f - 2^-5`); with every body, the loop returns one
step of size `(float) d` in the first case and `n` steps of size `0.1f` otherwise. -/
theorem C17_loop_count_binary (d : ℚ) (hd : toFloat d < 2 ^ 20) :
    ∃ n, RunsBodies d n ∧ 1 ≤ n ∧ n ≤ ⌊toFloat d / (integration_dtF - 1 / 32)⌋₊ + 1 ∧
      (toFloat d < integration_dtF → n = 1) ∧
      ∀ {σ : Type} (body : ℚ → σ → σ) (st : σ), ∃ N, ∀ fuel, N ≤ fuel →
        integrateF body fuel (toFloat d) st
          = some (if toFloat d < integration_dtF then body (toFloat d) st
              else (body integration_dtF)^[n] st) := by
  obtain ⟨n, hn1, hn2, hrun⟩ := runsBodies_exists d hd
  refine ⟨n, hrun, hn1, hn2, fun hlt => runsBodies_unique d n 1 hrun (runsBodies_lt d hlt), ?_⟩
  intro σ body st
  by_cases hlt : toFloat d < integration_dtF
  · refine ⟨1, fun fuel hf => ?_⟩
    rw [if_pos hlt]
    exact integrateF_of_lt body d hlt st fuel hf
  · obtain ⟨N, hN⟩ := integrateF_of_runsBodies body d n hrun (not_lt.mp hlt) st
    refine ⟨N, fun fuel hf => ?_⟩
    rw [if_neg hlt]
    exact hN fuel hf

/-- C17 (amended), at concrete inputs: the duration `1.0`. -/
theorem C17_loop_count_binary_witness :
    ∃ n, RunsBodies 1 n ∧ 1 ≤ n ∧ n ≤ ⌊toFloat 1 / (integration_dtF - 1 / 32)⌋₊ + 1 := by
  obtain ⟨n, h1, h2, h3, _⟩ := C17_loop_count_binary 1 (by rw [toFloat_one]; norm_num)
  exact ⟨n, h1, h2, h3⟩

theorem runsBodies_pos (d : ℚ) (n : ℕ) (h : RunsBodies d n) : 1 ≤ n := by
  obtain ⟨N, hN⟩ := h
  have := (integrateF_count_bounds _ _ _ _ (hN N (le_refl N))).1
  omega

/-- C19 (as stated) fails: for the first-order car from `(0, 0, 0)` with control `(1, 0)`, two
calls of duration `0.5 = 5 · 0.1` run `5 + 5` bodies and end at `x = 8388609/8388608`, while one
call of duration `0.5 + 0.5` runs nine bodies and ends at `x = 1887437/2097152`. -/
theorem C19_composition_counterexample :
    (∃ N, ∀ fuel, N ≤ fuel →
      RobotCarFirstOrder.propagateF fuel ratLibm ⟨0, 0, 0⟩ ![1, 0] (1 / 2) ⟨0, 0, 0⟩
          = some ⟨1 / 2, 0, 0⟩ ∧
      RobotCarFirstOrder.propagateF fuel ratLibm ⟨1 / 2, 0, 0⟩ ![1, 0] (1 / 2) ⟨0, 0, 0⟩
          = some ⟨8388609 / 8388608, 0, 0⟩ ∧
      RobotCarFirstOrder.propagateF fuel ratLibm ⟨0, 0, 0⟩ ![1, 0] (1 / 2 + 1 / 2) ⟨0, 0, 0⟩
          = some ⟨1887437 / 2097152, 0, 0⟩) ∧
    (8388609 / 8388608 : ℚ) ≠ 1887437 / 2097152 := by
  refine ⟨?_, by norm_num⟩
  have hge : integration_dtF ≤ toFloat (1 / 2) := by
    rw [toFloat_half]; norm_num [integration_dtF]
  obtain ⟨N1, h1⟩ := RobotCarFirstOrder.propagateF_unit_speed ratLibm
    (by norm_num [ratLibm]) (by norm_num [ratLibm]) (by norm_num [ratLibm]) 0 (1 / 2) 5
    toFloat_zero hge runsBodies_half
  obtain ⟨N2, h2⟩ := RobotCarFirstOrder.propagateF_unit_speed ratLibm
    (by norm_num [ratLibm]) (by norm_num [ratLibm]) (by norm_num [ratLibm]) (1 / 2) (1 / 2) 5
    toFloat_half hge runsBodies_half
  obtain ⟨N3, h3⟩ := RobotCarFirstOrder.propagateF_unit_speed ratLibm
    (by norm_num [ratLibm]) (by norm_num [ratLibm]) (by norm_num [ratLibm]) 0 1 9
    toFloat_zero (by rw [toFloat_one]; norm_num [integration_dtF]) runsBodies_one
  refine ⟨max N1 (max N2 N3), fun fuel hf => ?_⟩
  have hf1 : N1 ≤ fuel := le_trans (le_max_left _ _) hf
  have hf2 : N2 ≤ fuel := le_trans (le_trans (le_max_left _ _) (le_max_right _ _)) hf
  have hf3 : N3 ≤ fuel := le_trans (le_trans (le_max_right _ _) (le_max_right _ _)) hf
  have hone : (1 / 2 : ℚ) + 1 / 2 = 1 := by norm_num
  rw [h1 fuel hf1, h2 fuel hf2, hone, h3 fuel hf3, accumulate_dtF.1, accumulate_dtF.2.1,
    accumulate_dtF.2.2.1]
  exact ⟨rfl, rfl, rfl⟩

/-- C19 (amended): propagation composes when the numbers of loop bodies add up and no wrap
occurs in between.  For the first-order and the second-order car, durations `a`, `b` of at
least one step (`0.1f ≤ (float) a`, `0.1f ≤ (float) b`) and a duration `d` (such as `a + b`):
if the loop runs `j` bodies for `a`, `k` for `b` and `j + k` for `d`, and the heading reached
by the first call lies in the canonical range, then the three calls return and `propagate`
applied to the result of `propagate(s, c, a)` for `b` returns the same state as
`propagate(s, c, d)`.  (The numbers need not add up: `5 + 5` bodies for `0.5` and `0.5`, nine
for `1.0`.) -/
theorem C19_composition_binary (T : Libm ℚ) (a b d : ℚ) (j k : ℕ) (hja : RunsBodies a j)
    (hkb : RunsBodies b k) (hab : RunsBodies d (j + k))
    (hga : integration_dtF ≤ toFloat a) (hgb : integration_dtF ≤ toFloat b) :
    (∀ (s : SE2State ℚ) (c : Fin 2 → ℚ),
      Canonical T ((RobotCarFirstOrder.stepF T c integration_dtF)^[j]
        (RobotCarFirstOrder.localsF s)).yaw →
      ∃ N, ∀ fuel, N ≤ fuel → ∀ res1 res2 res3 : SE2State ℚ, ∃ r1 r2,
        RobotCarFirstOrder.propagateF fuel T s c a res1 = some r1 ∧
        RobotCarFirstOrder.propagateF fuel T r1 c b res2 = some r2 ∧
        RobotCarFirstOrder.propagateF fuel T s c d res3 = some r2) ∧
    (∀ (s : CarSOState ℚ) (c : Fin 2 → ℚ),
      Canonical T ((RobotCarSecondOrder.stepF T c integration_dtF)^[j]
        (RobotCarSecondOrder.localsF s)).yaw →
      ∃ N, ∀ fuel, N ≤ fuel → ∀ res1 res2 res3 : CarSOState ℚ, ∃ r1 r2,
        RobotCarSecondOrder.propagateF fuel T s c a res1 = some r1 ∧
        RobotCarSecondOrder.propagateF fuel T r1 c b res2 = some r2 ∧
        RobotCarSecondOrder.propagateF fuel T s c d res3 = some r2) := by
  have hj := runsBodies_pos a j hja
  have hgab : integration_dtF ≤ toFloat d := by
    by_contra hlt
    have := runsBodies_unique d (j + k) 1 hab (runsBodies_lt d (not_le.mp hlt))
    have hk := runsBodies_pos b k hkb
    omega
  constructor
  · intro s c hcan
    obtain ⟨N1, h1⟩ := integrateF_of_runsBodies (RobotCarFirstOrder.stepF T c) a j hja hga
      (RobotCarFirstOrder.localsF s)
    obtain ⟨N2, h2⟩ := integrateF_of_runsBodies (RobotCarFirstOrder.stepF T c) b k hkb hgb
      ((RobotCarFirstOrder.stepF T c integration_dtF)^[j] (RobotCarFirstOrder.localsF s))
    obtain ⟨N3, h3⟩ := integrateF_of_runsBodies (RobotCarFirstOrder.stepF T c) d (j + k)
      hab hgab (RobotCarFirstOrder.localsF s)
    refine ⟨max N1 (max N2 N3), fun fuel hf res1 res2 res3 => ?_⟩
    have hf1 : N1 ≤ fuel := le_trans (le_max_left _ _) hf
    have hf2 : N2 ≤ fuel := le_trans (le_trans (le_max_left _ _) (le_max_right _ _)) hf
    have hf3 : N3 ≤ fuel := le_trans (le_trans (le_max_right _ _) (le_max_right _ _)) hf
    have hr1 : RobotCarFirstOrder.writeResult T
        ((RobotCarFirstOrder.stepF T c integration_dtF)^[j] (RobotCarFirstOrder.localsF s)) res1
        = (RobotCarFirstOrder.stepF T c integration_dtF)^[j] (RobotCarFirstOrder.localsF s) := by
      simp only [RobotCarFirstOrder.writeResult, SE2State.setX, SE2State.setY, SE2State.setYaw,
        enforceBounds_of_canonical T _ hcan]
    refine ⟨(RobotCarFirstOrder.stepF T c integration_dtF)^[j] (RobotCarFirstOrder.localsF s),
      RobotCarFirstOrder.writeResult T
        ((RobotCarFirstOrder.stepF T c integration_dtF)^[k]
          ((RobotCarFirstOrder.stepF T c integration_dtF)^[j] (RobotCarFirstOrder.localsF s)))
        res2, ?_, ?_, ?_⟩
    · unfold RobotCarFirstOrder.propagateF
      rw [h1 fuel hf1, Option.map_some', hr1]
    · unfold RobotCarFirstOrder.propagateF
      rw [RobotCarFirstOrder.iterate_stepF_float_firstOrder, h2 fuel hf2, Option.map_some']
    · unfold RobotCarFirstOrder.propagateF
      rw [h3 fuel hf3, Option.map_some', Nat.add_comm j k, Function.iterate_add_apply]
      rfl
  · intro s c hcan
    obtain ⟨N1, h1⟩ := integrateF_of_runsBodies (RobotCarSecondOrder.stepF T c) a j hja hga
      (RobotCarSecondOrder.localsF s)
    obtain ⟨N2, h2⟩ := integrateF_of_runsBodies (RobotCarSecondOrder.stepF T c) b k hkb hgb
      ((RobotCarSecondOrder.stepF T c integration_dtF)^[j] (RobotCarSecondOrder.localsF s))
    obtain ⟨N3, h3⟩ := integrateF_of_runsBodies (RobotCarSecondOrder.stepF T c) d (j + k)
      hab hgab (RobotCarSecondOrder.localsF s)
    refine ⟨max N1 (max N2 N3), fun fuel hf res1 res2 res3 => ?_⟩
    have hf1 : N1 ≤ fuel := le_trans (le_max_left _ _) hf
    have hf2 : N2 ≤ fuel := le_trans (le_trans (le_max_left _ _) (le_max_right _ _)) hf
    have hf3 : N3 ≤ fuel := le_trans (le_trans (le_max_right _ _) (le_max_right _ _)) hf
    have hr1 : RobotCarSecondOrder.writeResult T
        ((RobotCarSecondOrder.stepF T c integration_dtF)^[j] (RobotCarSecondOrder.localsF s))
        res1
        = (RobotCarSecondOrder.stepF T c integration_dtF)^[j]
            (RobotCarSecondOrder.localsF s) := by
      simp only [RobotCarSecondOrder.writeResult, CarSOState.setX, CarSOState.setY,
        CarSOState.setYaw, CarSOState.setVelocity, CarSOState.setAngularVelocity,
        enforceBounds_of_canonical T _ hcan]
    refine ⟨(RobotCarSecondOrder.stepF T c integration_dtF)^[j]
        (RobotCarSecondOrder.localsF s),
      RobotCarSecondOrder.writeResult T
        ((RobotCarSecondOrder.stepF T c integration_dtF)^[k]
          ((RobotCarSecondOrder.stepF T c integration_dtF)^[j]
            (RobotCarSecondOrder.localsF s)))
        res2, ?_, ?_, ?_⟩
    · unfold RobotCarSecondOrder.propagateF
      rw [h1 fuel hf1, Option.map_some', hr1]
    · unfold RobotCarSecondOrder.propagateF
      rw [RobotCarSecondOrder.iterate_stepF_float_secondOrder, h2 fuel hf2, Option.map_some']
    · unfold RobotCarSecondOrder.propagateF
      rw [h3 fuel hf3, Option.map_some', Nat.add_comm j k, Function.iterate_add_apply]
      rfl

/-- C19 (amended), at concrete inputs: the first-order car from `(0, 0, 0)` with control
`(1, 0)`, durations `0.1f` and `0.1f` (one body each) and their sum (two bodies). -/
theorem C19_composition_binary_witness :
    ∃ N, ∀ fuel, N ≤ fuel → ∀ res1 res2 res3 : SE2State ℚ, ∃ r1 r2,
      RobotCarFirstOrder.propagateF fuel ratLibm ⟨0, 0, 0⟩ ![1, 0] integration_dtF res1
        = some r1 ∧
      RobotCarFirstOrder.propagateF fuel ratLibm r1 ![1, 0] integration_dtF res2 = some r2 ∧
      RobotCarFirstOrder.propagateF fuel ratLibm ⟨0, 0, 0⟩ ![1, 0]
        (integration_dtF + integration_dtF) res3 = some r2 :=
  (C19_composition_binary ratLibm integration_dtF integration_dtF
    (integration_dtF + integration_dtF) 1 1 runsBodies_dtF
    runsBodies_dtF runsBodies_two_dtF (by rw [toFloat_integration_dtF])
    (by rw [toFloat_integration_dtF])).1 ⟨0, 0, 0⟩ ![1, 0]
    (by
      have hloc : RobotCarFirstOrder.localsF ⟨0, 0, 0⟩ = (⟨0, 0, 0⟩ : SE2State ℚ) := by
        simp [RobotCarFirstOrder.localsF, SE2State.getX, SE2State.getY, SE2State.getYaw,
          toFloat_zero]
      rw [hloc, RobotCarFirstOrder.iterate_stepF_unit_speed ratLibm (by norm_num [ratLibm])
        (by norm_num [ratLibm])]
      norm_num [Canonical, ratLibm])

end Claims

end Robots
